import Mathlib

/-!
# Verification of the CADD Vault update pipeline

Shallow embedding of the update pipeline of the `CADD_Vault_v2` repository
(`cadd-vault-backend-scripts/update_database.py`, `services.py`, `models.py`)
together with proofs about the embedded definitions.

Python strings are modelled as `List Char` (wrapped into `String` at the API
boundary).  Python `re` operations used by the code are end-anchored
substitutions and searches; they are embedded as explicit leftmost-match
scans over character lists.  `.` is modelled as "any character" and `$` as
"end of string" (the inputs of interest contain no newline characters).
Network calls (GitHub API, Crossref, Europe PMC, bioRxiv API, impact-factor
search) are modelled as oracle parameters, as is the regex-table based
`_identify_preprint` dispatcher; everything else is translated from the
source.
-/

namespace CaddVault

/-! ## Basic string helpers (Python `str` operations on `List Char`) -/

/-- Python `str.strip()`: remove leading and trailing whitespace. -/
def stripChars (l : List Char) : List Char :=
  ((l.dropWhile Char.isWhitespace).reverse.dropWhile Char.isWhitespace).reverse

/-- The suffix that follows the *last* occurrence of `pat` in `l`
(`none` when `pat` (assumed nonempty) does not occur). -/
def afterLastAux (pat : List Char) : List Char → Option (List Char)
  | [] => none
  | c :: t =>
    match afterLastAux pat t with
    | some r => some r
    | none => if pat.isPrefixOf (c :: t) then some ((c :: t).drop pat.length) else none

/-- Python `pat in s` for a nonempty pattern `pat`. -/
def pyContains (pat l : List Char) : Bool := (afterLastAux pat l).isSome

/-- Python `s.split(pat)[-1]` for a nonempty pattern: the part after the last
occurrence, or `s` itself when `pat` does not occur. -/
def pyAfterLastSplit (pat l : List Char) : List Char :=
  match afterLastAux pat l with
  | some r => r
  | none => l

/-- The suffix that follows the *first* occurrence of `pat` in `l`. -/
def afterFirstAux (pat : List Char) : List Char → Option (List Char)
  | [] => none
  | c :: t =>
    if pat.isPrefixOf (c :: t) then some ((c :: t).drop pat.length)
    else afterFirstAux pat t

/-- Index of the leftmost position of `l` whose whole suffix satisfies `p`
(the leftmost match of an end-anchored regular expression). -/
def findMatchStart (p : List Char → Bool) : List Char → Option Nat
  | [] => if p [] then some 0 else none
  | c :: t => if p (c :: t) then some 0 else (findMatchStart p t).map (· + 1)

/-- Python `re.sub(pattern + '$', '', s)` for a pattern that never matches the
empty suffix: drop the leftmost end-anchored match. -/
def reSubEnd (p : List Char → Bool) (l : List Char) : List Char :=
  match findMatchStart p l with
  | some i => l.take i
  | none => l

/-- Python `s.replace(pat, '')` for a nonempty `pat`: remove every
(leftmost-first, non-overlapping) occurrence.  The fuel equals the length of
the scanned list, which bounds the number of steps. -/
def pyRemoveAllAux (pat : List Char) : Nat → List Char → List Char
  | 0, l => l
  | _ + 1, [] => []
  | fuel + 1, c :: t =>
    if pat.isPrefixOf (c :: t) && !pat.isEmpty then
      pyRemoveAllAux pat fuel ((c :: t).drop pat.length)
    else c :: pyRemoveAllAux pat fuel t

/-- Python `s.replace(pat, '')` for a nonempty `pat`. -/
def pyRemoveAll (pat l : List Char) : List Char := pyRemoveAllAux pat l.length l

/-- Python `s.lower()` (ASCII case folding suffices for the inputs here). -/
def lowerList (l : List Char) : List Char := l.map Char.toLower

/-! ## `PublicationService.normalize_doi` (services.py lines 111-145) -/

/-- Matcher for the end-anchored pattern `v\d+(?:\.full)?$`: a whole suffix
`v<digits>` optionally followed by `.full`.  Backtracking of `\d+` forces the
digit run to be maximal. -/
def matchVPat (s : List Char) : Bool :=
  match s with
  | 'v' :: t =>
    let ds := t.takeWhile Char.isDigit
    !ds.isEmpty &&
      (t.drop ds.length == [] || t.drop ds.length == ['.', 'f', 'u', 'l', 'l'])
  | _ => false

/-- Matcher for `\.full$`. -/
def matchFullPat (s : List Char) : Bool := s == ['.', 'f', 'u', 'l', 'l']

/-- Matcher for `\.(?:svg|pdf|html)$`. -/
def matchExtPat (s : List Char) : Bool :=
  s == ['.', 's', 'v', 'g'] || s == ['.', 'p', 'd', 'f'] || s == ['.', 'h', 't', 'm', 'l']

/-- Characters of the class `[\[\(\{\]\)\}]`. -/
def isBracketChar (c : Char) : Bool :=
  c == '[' || c == '(' || c == '{' || c == ']' || c == ')' || c == '}'

/-- Matcher for `[\[\(\{\]\)\}]+$`: a nonempty all-bracket suffix. -/
def matchBracketPat (s : List Char) : Bool := !s.isEmpty && s.all isBracketChar

/-- Characters of the trailing-punctuation class: dot, colon, hyphen, slash,
backslash. -/
def isTrailPunct (c : Char) : Bool :=
  c == '.' || c == ':' || c == '-' || c == '/' || c == '\\'

/-- Matcher for the end-anchored nonempty trailing-punctuation suffix. -/
def matchPunctPat (s : List Char) : Bool := !s.isEmpty && s.all isTrailPunct

/-- One iteration of the cleaning loop of `normalize_doi`: the five
end-anchored `re.sub`s, then `split('?')[0].split('#')[0]`, then `strip()`. -/
def cleanStep (l : List Char) : List Char :=
  let l1 := reSubEnd matchVPat l
  let l2 := reSubEnd matchFullPat l1
  let l3 := reSubEnd matchExtPat l2
  let l4 := reSubEnd matchBracketPat l3
  let l5 := reSubEnd matchPunctPat l4
  let l6 := l5.takeWhile (· ≠ '?')
  let l7 := l6.takeWhile (· ≠ '#')
  stripChars l7

/-- The `while old_doi != doi` loop of `normalize_doi`: iterate `cleanStep`
until a fixed point.  Each changing step strictly shortens the string, so
fuel `length + 1` always reaches the fixed point. -/
def cleanFix : Nat → List Char → List Char
  | 0, l => l
  | n + 1, l =>
    let l' := cleanStep l
    if l' = l then l else cleanFix n l'

/-- Matcher for `(10\.\d+/.+)$` at a given start position: `10.`, a nonempty
digit run, `/`, and at least one further character running to the end
(backtracking of `\d+` forces the run before `/` to be maximal). -/
def matchDoiPat (s : List Char) : Bool :=
  match s with
  | '1' :: '0' :: '.' :: t =>
    let ds := t.takeWhile Char.isDigit
    !ds.isEmpty &&
      (match t.drop ds.length with
       | '/' :: r => !r.isEmpty
       | _ => false)
  | _ => false

/-- `PublicationService.normalize_doi`, on character lists. -/
def normalizeDoiList (input : List Char) : Option (List Char) :=
  if input.isEmpty then none   -- `if not doi: return None`
  else
    let doi := stripChars input
    let doi :=
      if pyContains "doi.org/".toList doi then
        pyAfterLastSplit "doi.org/".toList doi        -- `doi.split('doi.org/')[-1]`
      else if pyContains "http://".toList doi || pyContains "https://".toList doi then
        match findMatchStart matchDoiPat doi with     -- `re.search(r'(10\.\d+/.+)$', doi)`
        | some i => doi.drop i
        | none => doi
      else doi
    let doi := cleanFix (doi.length + 1) doi
    if !doi.isEmpty && "10.".toList.isPrefixOf doi then
      some ("https://doi.org/".toList ++ doi)
    else if !doi.isEmpty &&
        (pyContains "http".toList doi || pyContains "doi.org".toList doi) then
      some doi
    else none

/-- `PublicationService.normalize_doi`. -/
def normalize_doi (s : String) : Option String :=
  (normalizeDoiList s.toList).map List.asString

/-- The identifier-extraction stage of `normalize_doi` (services.py lines
120-128), applied to the stripped input: split after the last `doi.org/`, or
locate a bare DOI inside an `http(s)` URL, or keep the string. -/
def doiExtract (doi : List Char) : List Char :=
  if pyContains "doi.org/".toList doi then
    pyAfterLastSplit "doi.org/".toList doi
  else if pyContains "http://".toList doi || pyContains "https://".toList doi then
    match findMatchStart matchDoiPat doi with
    | some i => doi.drop i
    | none => doi
  else doi

/-- The final branch of `normalize_doi` (services.py lines 138-145): prepend
the canonical prefix to a bare `10.`-DOI, pass through a URL-looking string,
otherwise fail. -/
def doiFinal (doi : List Char) : Option (List Char) :=
  if !doi.isEmpty && "10.".toList.isPrefixOf doi then
    some ("https://doi.org/".toList ++ doi)
  else if !doi.isEmpty &&
      (pyContains "http".toList doi || pyContains "doi.org".toList doi) then
    some doi
  else none

/-! ## `PublicationService.is_preprint` (services.py lines 147-151) -/

/-- `self.preprint_domains`. -/
def preprint_domains : List (List Char) :=
  ["arxiv".toList, "biorxiv".toList, "medrxiv".toList, "chemrxiv".toList, "zenodo".toList]

/-- `PublicationService.is_preprint`. -/
def is_preprint (url : String) : Bool :=
  if url.isEmpty then false    -- `if not url: return False`
  else preprint_domains.any (fun d => pyContains d (lowerList url.toList))

/-! ## `RepositoryService._extract_repo_path` (services.py lines 618-636)

`urllib.parse.urlparse` is modelled for the scheme-ful URLs this function
constructs: the netloc is what follows the first `://` up to `/`, `?` or `#`;
the hostname is the netloc after the last `@`, before the first `:`,
lowercased; the path runs up to `?` or `#`. -/

/-- `RepositoryService._extract_repo_path`, on character lists. -/
def extractRepoPathList (url : List Char) : Option (List Char) :=
  let url :=
    if !("http://".toList.isPrefixOf url) && !("https://".toList.isPrefixOf url) then
      "https://".toList ++ url
    else url
  match afterFirstAux "://".toList url with
  | none => none    -- unreachable: `url` starts with a scheme
  | some rest =>
    let netloc := rest.takeWhile (fun c => c ≠ '/' && c ≠ '?' && c ≠ '#')
    let path := (rest.drop netloc.length).takeWhile (fun c => c ≠ '?' && c ≠ '#')
    let hostname := lowerList ((pyAfterLastSplit ['@'] netloc).takeWhile (· ≠ ':'))
    if pyContains "github.com".toList hostname then
      match (path.splitOn '/').filter (fun p => !p.isEmpty) with
      | owner :: repo :: _ =>
        some (owner ++ '/' :: pyRemoveAll ".git".toList repo)  -- `.replace('.git', '')`
      | _ => none
    else none

/-- `RepositoryService._extract_repo_path`. -/
def extract_repo_path (url : String) : Option String :=
  (extractRepoPathList url.toList).map List.asString

/-! ## `RepositoryService._calculate_time_ago` (services.py lines 661-684)

Date parsing and the wall clock are external; the embedded function maps the
whole-day difference `(now - commit_date).days` to the rendered string.
Python `//` on `int` is floor division, i.e. `Int.fdiv`. -/

/-- The bucketing of `_calculate_time_ago`, as a function of `diff.days`. -/
def calculate_time_ago_days (days : Int) : String :=
  if days < 30 then
    if days != 1 then toString days ++ " days ago" else "1 day ago"
  else if days < 365 then
    let months := Int.fdiv days 30
    if months != 1 then toString months ++ " months ago" else "1 month ago"
  else
    let years := Int.fdiv days 365
    if years != 1 then toString years ++ " years ago" else "1 year ago"

/-! ## Values and update sets

A Python `dict` update set is modelled as an association list keyed by the
column-name strings that the source writes.  `dictSet` mirrors `d[k] = v`
(replace in place, else append, preserving insertion order) and `dictUpdate`
mirrors `d.update(e)`.  Float values (impact factors) are carried as
rationals; the pipeline never computes with them. -/

inductive Val where
  | vint : Int → Val
  | vstr : String → Val
  | vfloat : Rat → Val
deriving DecidableEq, Repr

/-- An update set: field name to new value, in insertion order. -/
abbrev Updates := List (String × Val)

/-- Python `d[k] = v` on a dict modelled as an association list. -/
def dictSet (d : Updates) (k : String) (v : Val) : Updates :=
  if d.any (fun p => p.1 = k) then d.map (fun p => if p.1 = k then (k, v) else p)
  else d ++ [(k, v)]

/-- Python `d.update(e)`. -/
def dictUpdate (d e : Updates) : Updates :=
  e.foldl (fun acc p => dictSet acc p.1 p.2) d

/-- The keys of an update set. -/
def updKeys (d : Updates) : List String := d.map Prod.fst

/-- Python `d.get(k)`. -/
def getVal (d : Updates) (k : String) : Option Val :=
  (d.find? (fun p => p.1 = k)).map Prod.snd

/-- Conditional assignment `if guard and value is not None: d[k] = value`,
the shape of every field write in the merge policy. -/
def updSet (u : Updates) (guard : Bool) (k : String) (v : Option Val) : Updates :=
  if guard then
    match v with
    | some vv => dictSet u k vv
    | none => u
  else u

/-! ## Data model (`models.py`) -/

/-- `models.Entry` (the record as mapped by `_dict_to_entry`). -/
structure Entry where
  id : String
  package_name : Option String := none
  repo_link : Option String := none
  publication_url : Option String := none
  webserver : Option String := none
  link : Option String := none
  folder1 : Option String := none
  category1 : Option String := none
  description : Option String := none
  license : Option String := none
  page_icon : Option String := none
  tags : List String := []
  github_owner : Option String := none
  github_repo : Option String := none
  github_stars : Option Int := none
  primary_language : Option String := none
  last_commit : Option String := none
  last_commit_ago : Option String := none
  citations : Option Int := none
  journal : Option String := none
  jif : Option Rat := none
  average_rating : Option Rat := none
  ratings_count : Option Int := none
  ratingsum : Option Int := none
deriving DecidableEq, Repr

/-- The fields of `models.Repository` that `get_repository_data` fills from
the hosting API (the network fetch itself is an oracle). -/
structure RepoData where
  stars : Option Int := none
  last_commit : Option String := none
  last_commit_ago : Option String := none
  license : Option String := none
  primary_language : Option String := none
deriving DecidableEq, Repr

/-- The dictionary returned by `get_journal_info` (the unused `issn-type`
entry is omitted). -/
structure JournalInfo where
  journal : Option String := none
  issn : Option String := none
deriving DecidableEq, Repr

/-- The preprint servers of `self.preprint_patterns` — the only values
`_identify_preprint` can return for the server component. -/
inductive PreprintType where
  | arxiv
  | biorxiv
  | medrxiv
  | chemrxiv
deriving DecidableEq, Repr

/-- `services.PreprintResult`. -/
structure PreprintResult where
  original_url : String
  published_doi : Option String := none
  published_url : Option String := none
  title : Option String := none
  publication_status : String := "unpublished"
  error : Option String := none
deriving DecidableEq, Repr

/-- Python truthiness of an optional string (`None` and `""` are falsy). -/
def optStrTruthy : Option String → Bool
  | none => false
  | some s => !s.isEmpty

/-! ## `PublicationService.check_publication_status` (services.py 164-197)

`_identify_preprint` (a pure regex table scan) and the three network-backed
checkers are oracle parameters; a checker returning `.error` models an
exception escaping the checker into the enclosing `try`.  `_get_doi_title`
catches internally and so is an `Option`-valued oracle. -/

def check_publication_status
    (identify : String → Option (PreprintType × String))
    (checker : PreprintType → String → Except String (Option String × Option String))
    (getTitle : String → Option String)
    (url : String) : PreprintResult :=
  let result : PreprintResult := { original_url := url }
  match identify url with
  | none =>    -- `if not preprint_type or not preprint_id`
    { result with error := some "Could not identify preprint type or ID" }
  | some (ptype, pid) =>
    if pid.isEmpty then
      { result with error := some "Could not identify preprint type or ID" }
    else
      match checker ptype pid with
      | .error e =>    -- `except Exception as e`: fresh result, only `error` set
        { original_url := url, error := some e }
      | .ok (pdoi, purl) =>
        match pdoi, purl with
        | some d, some pu =>
          if !d.isEmpty && !pu.isEmpty then    -- `if published_doi and published_url`
            { result with
                published_doi := some d
                published_url := some pu
                title := getTitle d
                publication_status := "published" }
          else result
        | _, _ => result

/-! ## The service-call oracles and run state -/

/-- The external collaborators of one run: the source-hosting fetch, the
preprint machinery, the citation/journal registries, the store's write
outcomes (per record and attempt; `none` = success, `some msg` = the raised
error's message) and the timestamp stamped on writes. -/
structure Services where
  getRepo : String → Option RepoData
  identify : String → Option (PreprintType × String)
  checker : PreprintType → String → Except String (Option String × Option String)
  getTitle : String → Option String
  getCitations : String → Option Int
  getJournalInfo : String → Option JournalInfo
  getImpactFactor : JournalInfo → Option Rat
  writeResult : String → Nat → Option String
  nowTs : String

/-- One recorded change in dry-run mode (`add_dry_run_change`; the wall-clock
timestamp is omitted). -/
structure DryRunChange where
  package_id : String
  package_name : String
  field : String
  old_value : Option Val
  new_value : Val
deriving DecidableEq, Repr

/-- `update_database.UpdateStats` (error entries are `(package_id, error,
type)`; the wall-clock timestamp is omitted). -/
structure UpdateStats where
  total_packages : Nat := 0
  processed_packages : Nat := 0
  updated_packages : Nat := 0
  skipped_packages : Nat := 0
  failed_packages : Nat := 0
  errors : List (String × String × String) := []
  repository_updates : Nat := 0
  publication_updates : Nat := 0
  github_data_updates : Nat := 0
  citation_updates : Nat := 0
  dry_run_changes : List DryRunChange := []
deriving DecidableEq, Repr

/-- `UpdateStats.add_error`. -/
def UpdateStats.add_error (st : UpdateStats) (pid msg ty : String) : UpdateStats :=
  { st with errors := st.errors ++ [(pid, msg, ty)] }

/-- One attempted store write (`supabase.table("packages").update(...)`). -/
structure WriteAttempt where
  package_id : String
  payload : Updates
deriving DecidableEq, Repr

/-! ## `DatabaseUpdater._process_repository_data` (update_database.py 344-390)

Each `if ...: updates[k] = v` line is rendered through `updSet`.  The
`github_data_updates` counter bump that happens inside this method is applied
by the caller (`process_single_package`) under the same `updates` nonemptiness
condition, which is observationally identical.  The `except` branch is dead:
`get_repository_data` and `_extract_repo_path` catch internally. -/

/-- The `github_owner`/`github_repo` block of `_process_repository_data`
(update_database.py lines 373-381): `if entry.github_owner is None or
entry.github_repo is None:` with `repo_path.split('/', 1)`. -/
def owner_repo_updates (entry : Entry) (rl : String) (u : Updates) : Updates :=
  if entry.github_owner == none || entry.github_repo == none then
    match extract_repo_path rl with
    | some p =>
      if !p.isEmpty && pyContains ['/'] p.toList then
        let owner := p.toList.takeWhile (· ≠ '/')
        let repo := p.toList.drop (owner.length + 1)
        let u := updSet u (entry.github_owner == none) "github_owner"
          (some (.vstr owner.asString))
        updSet u (entry.github_repo == none) "github_repo"
          (some (.vstr repo.asString))
      else u
    | none => u
  else u

def process_repository_data (svc : Services) (entry : Entry) : Updates :=
  match entry.repo_link with
  | none => []    -- `if not entry.repo_link or 'github.com' not in entry.repo_link`
  | some rl =>
    if rl.isEmpty || !pyContains "github.com".toList rl.toList then []
    else
      match svc.getRepo rl with
      | none => []    -- `if repo_data:` fails
      | some rd =>
        let u : Updates := []
        let u := updSet u true "github_stars" (rd.stars.map .vint)
        let u := updSet u true "last_commit" (rd.last_commit.map .vstr)
        let u := updSet u true "last_commit_ago" (rd.last_commit_ago.map .vstr)
        let u := updSet u (entry.license == none) "license" (rd.license.map .vstr)
        let u := updSet u (entry.primary_language == none) "primary_language"
          (rd.primary_language.map .vstr)
        owner_repo_updates entry rl u

/-! ## `DatabaseUpdater._process_publication_data` (update_database.py 392-448)

`get_citations`, `get_journal_info` and `get_impact_factor` catch internally
and return "no data" on failure, so the inner `try` blocks are dead; they are
`Option`-valued oracles here. -/

/-- The `lookup_url` resolved for a record: the normalized identifier, or the
published identifier when preprint resolution succeeds. -/
def resolved_lookup (svc : Services) (nurl : String) : String :=
  if is_preprint nurl then
    let pr := check_publication_status svc.identify svc.checker svc.getTitle nurl
    match pr.published_url with
    | some pubu =>
      if pr.publication_status == "published" && !pubu.isEmpty then pubu else nurl
    | none => nurl
  else nurl

/-- The preprint write-back stage of `_process_publication_data`
(update_database.py lines 405-416): the `publication` key is set exactly when
preprint resolution succeeds. -/
def publication_base (svc : Services) (nurl : String) : Updates :=
  if is_preprint nurl then
    let pr := check_publication_status svc.identify svc.checker svc.getTitle nurl
    match pr.published_url with
    | some pubu =>
      if pr.publication_status == "published" && !pubu.isEmpty then
        dictSet [] "publication" (.vstr pubu)
      else []
    | none => []
  else []

/-- The journal/impact-factor block of `_process_publication_data`
(update_database.py lines 429-442): `get_journal_info` is consulted only when
journal or impact factor is unset, and each field is written only when unset
(and, for the journal name, truthy). -/
def journal_updates (svc : Services) (entry : Entry) (lookup : String)
    (u : Updates) : Updates :=
  match (if entry.journal == none || entry.jif == none then
           svc.getJournalInfo lookup
         else none) with
  | none => u
  | some ji =>
    let u := updSet u (entry.journal == none && optStrTruthy ji.journal)
      "journal" (ji.journal.map .vstr)
    updSet u (entry.jif == none) "jif" ((svc.getImpactFactor ji).map .vfloat)

def process_publication_data (svc : Services) (entry : Entry) : Updates :=
  match entry.publication_url with
  | none => []    -- `if not entry.publication_url`
  | some pu =>
    if pu.isEmpty then []
    else
      match normalize_doi pu with
      | none => []    -- `if normalized_url:` fails
      | some nurl =>
        if nurl.isEmpty then []
        else
          let u := publication_base svc nurl
          let lookup := resolved_lookup svc nurl
          -- `if lookup_url and not is_preprint(lookup_url):`
          if !lookup.isEmpty && !(is_preprint lookup) then
            journal_updates svc entry lookup
              (updSet u true "citations" ((svc.getCitations lookup).map .vint))
          else u

/-- The merged update set of one record (`updates = {}`, then
`updates.update(repo_updates)`, then `updates.update(pub_updates)`). -/
def merged_updates (svc : Services) (entry : Entry) : Updates :=
  dictUpdate (dictUpdate [] (process_repository_data svc entry))
    (process_publication_data svc entry)

/-! ## `DatabaseUpdater._apply_updates` (update_database.py 450-479) -/

/-- `self.max_retries`. -/
def max_retries : Nat := 3

/-- The retry loop of `_apply_updates`, from attempt number `attempt` with
`remaining` iterations left.  Returns the method's boolean result, the stats
(an error entry is recorded when the final attempt fails) and the trace of
issued store writes. -/
def apply_updates_go (svc : Services) (pid : String) (payload : Updates)
    (st : UpdateStats) : Nat → Nat → Bool × UpdateStats × List WriteAttempt
  | _, 0 => (false, st, [])
  | attempt, r + 1 =>
    let att : WriteAttempt := ⟨pid, payload⟩
    match svc.writeResult pid attempt with
    | none => (true, st, [att])
    | some e =>
      if attempt < max_retries - 1 then
        let rec_ := apply_updates_go svc pid payload st (attempt + 1) r
        (rec_.1, rec_.2.1, att :: rec_.2.2)
      else
        (false, st.add_error pid e "database_update", [att])

/-- `DatabaseUpdater._apply_updates` (the `last_updated` stamp is re-set on
every attempt to the same modelled timestamp). -/
def apply_updates (svc : Services) (st : UpdateStats) (pid : String)
    (updates : Updates) : Bool × UpdateStats × List WriteAttempt :=
  apply_updates_go svc pid (dictSet updates "last_updated" (.vstr svc.nowTs)) st 0 max_retries

/-! ## `DatabaseUpdater._process_single_package` (update_database.py 254-304) -/

/-- The `old_value` computed for a dry-run change entry:
`getattr(entry, field, None) if hasattr(entry, field) else package_data.get(field)`.
The only update key that is not an `Entry` attribute is `publication`, which
the raw record stores in its `publication` column (mapped to
`publication_url`). -/
def entry_field_get (e : Entry) : String → Option Val
  | "github_stars" => e.github_stars.map .vint
  | "last_commit" => e.last_commit.map .vstr
  | "last_commit_ago" => e.last_commit_ago.map .vstr
  | "license" => e.license.map .vstr
  | "primary_language" => e.primary_language.map .vstr
  | "github_owner" => e.github_owner.map .vstr
  | "github_repo" => e.github_repo.map .vstr
  | "publication" => e.publication_url.map .vstr
  | "citations" => e.citations.map .vint
  | "journal" => e.journal.map .vstr
  | "jif" => e.jif.map .vfloat
  | _ => none

/-- The per-category counter bumps of one record's processing:
`github_data_updates` (from inside `_process_repository_data`) and
`repository_updates` when the repository update set is nonempty,
`publication_updates` when the publication update set is nonempty, and
`citation_updates` when a citation count was fetched (exactly when the
`citations` key was added). -/
def bump_category_stats (st : UpdateStats) (repoNe pubNe cit : Bool) : UpdateStats :=
  let st1 := if repoNe then
      { st with github_data_updates := st.github_data_updates + 1,
                repository_updates := st.repository_updates + 1 }
    else st
  let st2 := if pubNe then
      { st1 with publication_updates := st1.publication_updates + 1 }
    else st1
  if cit then { st2 with citation_updates := st2.citation_updates + 1 } else st2

/-- `DatabaseUpdater._process_single_package`.  The record is given by its
`Entry` image (`_dict_to_entry` is a pure renaming); `exc` models an
exception raised while computing this record's updates (`some msg` = raised
with message `msg`), which the method's own `except` block handles.  Returns
the new stats, the trace of store writes, and the method's return value. -/
def process_single_package (svc : Services) (dry_run : Bool) (exc : Option String)
    (entry : Entry) (st : UpdateStats) :
    UpdateStats × List WriteAttempt × Option Updates :=
  let pid := entry.id
  let pname := entry.package_name.getD "Unknown"
  let st := { st with processed_packages := st.processed_packages + 1 }
  match exc with
  | some msg =>
    -- `except Exception as e: ... add_error ...; failed_packages += 1; return None`
    let st := st.add_error pid msg "processing"
    ({ st with failed_packages := st.failed_packages + 1 }, [], none)
  | none =>
    let repoU := process_repository_data svc entry
    let pubU := process_publication_data svc entry
    let updates := merged_updates svc entry
    let st := bump_category_stats st (!repoU.isEmpty) (!pubU.isEmpty)
      ((updKeys pubU).contains "citations")
    if updates ≠ [] then
      if dry_run then
        let st := { st with
          dry_run_changes := st.dry_run_changes ++
            updates.map (fun (p : String × Val) =>
              ({ package_id := pid, package_name := pname, field := p.1,
                 old_value := entry_field_get entry p.1, new_value := p.2 } : DryRunChange)) }
        ({ st with updated_packages := st.updated_packages + 1 }, [], some updates)
      else
        -- the boolean result of `_apply_updates` is discarded
        let r := apply_updates svc st pid updates
        ({ r.2.1 with updated_packages := r.2.1.updated_packages + 1 }, r.2.2, some updates)
    else
      ({ st with skipped_packages := st.skipped_packages + 1 }, [], some updates)

/-! ## `DatabaseUpdater._process_package_batch` (update_database.py 235-252)

All per-record tasks of a batch run on one event loop; counter increments are
atomic, and concurrent completion order can only permute the order of error
entries, so the batch is modelled sequentially.  Because
`_process_single_package` catches every exception internally, the
`asyncio.gather` exception branch (lines 247-252) never fires. -/

def process_package_batch (svc : Services) (dry_run : Bool)
    (excOf : Entry → Option String) (batch : List Entry) (st : UpdateStats) :
    UpdateStats × List WriteAttempt :=
  batch.foldl
    (fun acc e =>
      let r := process_single_package svc dry_run (excOf e) e acc.1
      (r.1, acc.2 ++ r.2.1))
    (st, [])

/-! ## `DatabaseUpdater._fetch_packages` (update_database.py 131-216) -/

/-- A query issued to the record store: a `.range(lo, hi)`-bounded page read,
or the single `.in_("id", ids)` read used for an explicit identifier list. -/
inductive DbQuery where
  | rangeQ (lo hi : Nat)
  | inQ (ids : List String)
deriving DecidableEq, Repr

/-- The caller's package selection (`package_filter`): explicit identifier
list, numeric cap (`limit`), or everything (`--all`). -/
inductive Selection where
  | ids (l : List String)
  | cap (n : Nat)
  | all
deriving DecidableEq, Repr

/-- `page_size = 1000  # Maximum allowed by Supabase`. -/
def page_size : Nat := 1000

/-- The `while has_more` pagination loop.  The store is a list; the
`.range(lo, hi)` query returns the corresponding slice.  `maxP` is
`max_packages`.  The loop terminates because every full page advances the
window by `ps`; fuel `store.length / ps + 1` bounds the iterations. -/
def fetchLoop {α : Type} (store : List α) (ps : Nat) (maxP : Option Nat) :
    Nat → Nat → Nat → List DbQuery × List α
  | 0, _, _ => ([], [])
  | fuel + 1, currentPage, totalFetched =>
    match maxP with
    | some m =>
      if m ≤ totalFetched then ([], [])    -- `if remaining <= 0: break`
      else
        let fetchCount := min ps (m - totalFetched)
        let lo := currentPage * ps
        let page := (store.drop lo).take fetchCount
        -- `has_more = packages_count == fetch_count`, then
        -- `if max_packages is not None and total_fetched >= max_packages: has_more = False`
        if page.length = fetchCount ∧ totalFetched + page.length < m then
          let r := fetchLoop store ps maxP fuel (currentPage + 1) (totalFetched + page.length)
          (DbQuery.rangeQ lo (lo + fetchCount - 1) :: r.1, page ++ r.2)
        else ([DbQuery.rangeQ lo (lo + fetchCount - 1)], page)
    | none =>
      let lo := currentPage * ps
      let page := (store.drop lo).take ps
      if page.length = ps then
        let r := fetchLoop store ps maxP fuel (currentPage + 1) (totalFetched + page.length)
        (DbQuery.rangeQ lo (lo + ps - 1) :: r.1, page ++ r.2)
      else ([DbQuery.rangeQ lo (lo + ps - 1)], page)

/-- `DatabaseUpdater._fetch_packages`: the issued query trace and the fetched
records.  An identifier-list selection is served by one non-paginated query
(update_database.py lines 137-146). -/
def fetch_packages {α : Type} (idOf : α → String) (store : List α)
    (sel : Selection) : List DbQuery × List α :=
  match sel with
  | .ids l => ([DbQuery.inQ l], store.filter (fun r => l.contains (idOf r)))
  | .cap n => fetchLoop store page_size (some n) (store.length / page_size + 1) 0 0
  | .all => fetchLoop store page_size none (store.length / page_size + 1) 0 0

/-- A concrete service bundle used to exercise the theorems on concrete
inputs: the repository fetch returns only a star count, nothing else is
found, and the store's write outcome is `wr`. -/
def sample_services (wr : String → Nat → Option String) : Services where
  getRepo := fun _ => some { stars := some 7 }
  identify := fun _ => none
  checker := fun _ _ => .ok (none, none)
  getTitle := fun _ => none
  getCitations := fun _ => none
  getJournalInfo := fun _ => none
  getImpactFactor := fun _ => none
  writeResult := wr
  nowTs := "TS"

/-- A concrete record used to exercise the theorems. -/
def sample_entry : Entry :=
  { id := "p1", repo_link := some "https://github.com/numpy/numpy",
    github_owner := some "numpy", github_repo := some "numpy" }

/-- A fully populated repository fetch result used by the fixtures. -/
def sample_repo_data : RepoData :=
  { stars := some 7, last_commit := some "2024-01-01T00:00:00Z",
    last_commit_ago := some "1 day ago", license := some "MIT",
    primary_language := some "Python" }

/-- A concrete service bundle where every lookup succeeds: the repository
fetch returns full data, the record is recognized as an arXiv preprint with
a published version, and citation/journal/impact-factor lookups return
data. -/
def sample_services_full : Services where
  getRepo := fun _ => some sample_repo_data
  identify := fun _ => some (.arxiv, "1706.03762")
  checker := fun _ _ => .ok (some "10.1000/xyz", some "https://doi.org/10.1000/xyz")
  getTitle := fun _ => some "Attention Is All You Need"
  getCitations := fun _ => some 42
  getJournalInfo := fun _ => some { journal := some "Nature" }
  getImpactFactor := fun _ => some 5
  writeResult := fun _ _ => none
  nowTs := "TS"

/-- A concrete record with a repository link and a preprint publication
identifier, and all fillable fields unset. -/
def sample_entry_full : Entry :=
  { id := "p1", package_name := some "P",
    repo_link := some "https://github.com/numpy/numpy",
    publication_url := some "https://arxiv.org/abs/1706.03762" }

/-- The rating aggregate columns, owned by the separate rating subsystem. -/
def rating_keys : List String := ["average_rating", "ratings_count", "ratings_sum"]

/-! # Theorems -/

/-! ## Dictionary lemmas -/

lemma getVal_nil (a : String) : getVal [] a = none := rfl

lemma getVal_cons (k : String) (v : Val) (d : Updates) (a : String) :
    getVal ((k, v) :: d) a = if k = a then some v else getVal d a := by
  unfold getVal
  by_cases h : k = a
  · rw [List.find?_cons_of_pos _ (by simpa using h), if_pos h]
    rfl
  · rw [List.find?_cons_of_neg _ (by simpa using h), if_neg h]

lemma getVal_eq_none_of_not_mem {d : Updates} {a : String} (h : a ∉ updKeys d) :
    getVal d a = none := by
  induction d with
  | nil => rfl
  | cons p t ih =>
    obtain ⟨k, v⟩ := p
    simp only [updKeys, List.map_cons, List.mem_cons, not_or] at h
    rw [getVal_cons, if_neg (fun he => h.1 he.symm)]
    exact ih (by simpa [updKeys] using h.2)

lemma any_key_iff (d : Updates) (k : String) :
    d.any (fun p => p.1 = k) = true ↔ k ∈ updKeys d := by
  simp only [List.any_eq_true, updKeys, List.mem_map, decide_eq_true_eq]

lemma updKeys_map_replace (d : Updates) (k : String) (v : Val) :
    updKeys (d.map (fun p => if p.1 = k then (k, v) else p)) = updKeys d := by
  simp only [updKeys, List.map_map]
  apply List.map_congr_left
  intro p _
  by_cases h : p.1 = k <;> simp [h]

lemma getVal_map_replace (k : String) (v : Val) (t : Updates) (a : String) :
    getVal (t.map (fun p => if p.1 = k then (k, v) else p)) a =
      if a = k then (if k ∈ updKeys t then some v else none) else getVal t a := by
  induction t with
  | nil =>
    by_cases ha : a = k <;> simp [getVal_nil, ha, updKeys]
  | cons hd tl ih =>
    obtain ⟨k1, v1⟩ := hd
    simp only [List.map_cons]
    by_cases h1 : k1 = k
    · rw [if_pos (by simpa using h1)]
      rw [getVal_cons, getVal_cons, ih]
      have hk : k ∈ updKeys ((k1, v1) :: tl) := by simp [updKeys, h1]
      by_cases ha : a = k
      · rw [if_pos (ha ▸ rfl : k = a), if_pos ha, if_pos hk]
      · rw [if_neg (fun h => ha h.symm), if_neg ha, if_neg ha,
          if_neg (fun h : k1 = a => ha (h ▸ h1.symm ▸ rfl))]
  -- when the head key differs from `k`, the head survives unchanged
    · rw [if_neg (by simpa using h1)]
      rw [getVal_cons, getVal_cons, ih]
      have hkeys : (k ∈ updKeys ((k1, v1) :: tl)) ↔ k ∈ updKeys tl := by
        simp [updKeys, fun h : k1 = k => h1 h]
        intro h; exact absurd h.symm h1
      by_cases h2 : k1 = a
      · have ha : ¬a = k := fun h => h1 (h2.trans h)
        rw [if_pos h2, if_pos h2, if_neg ha]
      · rw [if_neg h2, if_neg h2]
        by_cases ha : a = k
        · rw [if_pos ha, if_pos ha]
          exact (if_congr hkeys rfl rfl).symm
        · rw [if_neg ha, if_neg ha]

lemma getVal_dictSet (d : Updates) (k : String) (v : Val) (a : String) :
    getVal (dictSet d k v) a = if a = k then some v else getVal d a := by
  unfold dictSet
  by_cases hany : d.any (fun p => p.1 = k) = true
  · rw [if_pos hany, getVal_map_replace, if_pos ((any_key_iff d k).mp hany)]
  · rw [if_neg hany]
    have hnm : k ∉ updKeys d := fun h => hany ((any_key_iff d k).mpr h)
    unfold getVal
    rw [List.find?_append]
    by_cases ha : a = k
    · subst ha
      rw [show (d.find? fun p => decide (p.1 = a)) = none from by
        have := getVal_eq_none_of_not_mem (d := d) (a := a) hnm
        simpa [getVal] using this]
      simp [List.find?]
    · have hd : decide (k = a) = false := decide_eq_false (fun h => ha h.symm)
      have : (([(k, v)] : Updates).find? fun p => decide (p.1 = a)) = none := by
        simp [List.find?, hd]
      rw [this, if_neg ha]
      simp

lemma updSet_false (u : Updates) (k : String) (v : Option Val) :
    updSet u false k v = u := rfl

lemma updSet_none (u : Updates) (g : Bool) (k : String) :
    updSet u g k none = u := by
  unfold updSet; split <;> rfl

lemma updSet_true_some (u : Updates) (k : String) (v : Val) :
    updSet u true k (some v) = dictSet u k v := rfl

lemma getVal_updSet_other {a k : String} (u : Updates) (g : Bool) (v : Option Val)
    (h : a ≠ k) : getVal (updSet u g k v) a = getVal u a := by
  unfold updSet
  split
  · match v with
    | some vv => rw [getVal_dictSet, if_neg h]
    | none => rfl
  · rfl

lemma getVal_updSet_self (u : Updates) (k : String) (v : Val) :
    getVal (updSet u true k (some v)) k = some v := by
  rw [updSet_true_some, getVal_dictSet, if_pos rfl]

lemma mem_updKeys_dictSet_iff (d : Updates) (k : String) (v : Val) (a : String) :
    a ∈ updKeys (dictSet d k v) ↔ a ∈ updKeys d ∨ a = k := by
  unfold dictSet
  by_cases hany : d.any (fun p => p.1 = k) = true
  · rw [if_pos hany, updKeys_map_replace]
    have hmem := (any_key_iff d k).mp hany
    constructor
    · exact Or.inl
    · rintro (h | rfl)
      · exact h
      · exact hmem
  · rw [if_neg hany]
    simp [updKeys]

lemma mem_updKeys_updSet_iff (u : Updates) (g : Bool) (k : String) (v : Option Val)
    (a : String) :
    a ∈ updKeys (updSet u g k v) ↔
      a ∈ updKeys u ∨ (a = k ∧ g = true ∧ v.isSome = true) := by
  unfold updSet
  cases g
  · simp
  · match v with
    | some vv => simp [mem_updKeys_dictSet_iff]
    | none => simp

lemma mem_updKeys_dictUpdate {d e : Updates} {a : String}
    (h : a ∈ updKeys (dictUpdate d e)) : a ∈ updKeys d ∨ a ∈ updKeys e := by
  induction e generalizing d with
  | nil => exact Or.inl h
  | cons p t ih =>
    obtain ⟨k, v⟩ := p
    have h' : a ∈ updKeys (dictUpdate (dictSet d k v) t) := h
    rcases ih h' with h2 | h2
    · rcases (mem_updKeys_dictSet_iff d k v a).mp h2 with h3 | rfl
      · exact Or.inl h3
      · exact Or.inr (by simp [updKeys])
    · exact Or.inr (by simp [updKeys] at h2 ⊢; exact Or.inr h2)

lemma updKeys_nodup_dictSet {d : Updates} (k : String) (v : Val)
    (h : (updKeys d).Nodup) : (updKeys (dictSet d k v)).Nodup := by
  unfold dictSet
  by_cases hany : d.any (fun p => p.1 = k) = true
  · rw [if_pos hany, updKeys_map_replace]; exact h
  · rw [if_neg hany]
    have hnm : k ∉ updKeys d := fun hm => hany ((any_key_iff d k).mpr hm)
    have : updKeys (d ++ [(k, v)]) = updKeys d ++ [k] := by simp [updKeys]
    rw [this]
    simp [List.nodup_append, h, hnm]

lemma updKeys_nodup_updSet {u : Updates} (g : Bool) (k : String) (v : Option Val)
    (h : (updKeys u).Nodup) : (updKeys (updSet u g k v)).Nodup := by
  unfold updSet
  split
  · match v with
    | some vv => exact updKeys_nodup_dictSet k vv h
    | none => exact h
  · exact h

lemma getVal_dictUpdate_not_mem {d e : Updates} {a : String} (h : a ∉ updKeys e) :
    getVal (dictUpdate d e) a = getVal d a := by
  induction e generalizing d with
  | nil => rfl
  | cons p t ih =>
    obtain ⟨k, v⟩ := p
    simp only [updKeys, List.map_cons, List.mem_cons, not_or] at h
    have step : getVal (dictUpdate (dictSet d k v) t) a = getVal (dictSet d k v) a :=
      ih (by simpa [updKeys] using h.2)
    have : dictUpdate d ((k, v) :: t) = dictUpdate (dictSet d k v) t := rfl
    rw [this, step, getVal_dictSet, if_neg h.1]

lemma getVal_dictUpdate_nodup {e : Updates} (d : Updates) (a : String)
    (hno : (updKeys e).Nodup) :
    getVal (dictUpdate d e) a = (getVal e a).or (getVal d a) := by
  induction e generalizing d with
  | nil => simp [dictUpdate, getVal_nil]
  | cons p t ih =>
    obtain ⟨k, v⟩ := p
    have hno' : (updKeys t).Nodup := by
      simpa [updKeys] using hno.of_cons
    have hk : k ∉ updKeys t := by
      have := hno
      simp only [updKeys, List.map_cons, List.nodup_cons] at this
      simpa [updKeys] using this.1
    have : dictUpdate d ((k, v) :: t) = dictUpdate (dictSet d k v) t := rfl
    rw [this, ih (dictSet d k v) hno', getVal_cons, getVal_dictSet]
    by_cases ha : k = a
    · subst ha
      rw [if_pos rfl, if_pos rfl, getVal_eq_none_of_not_mem hk]
      simp
    · rw [if_neg ha, if_neg (fun h => ha h.symm)]

/-! ## Write-trace and statistics lemmas -/

lemma bump_category_stats_proj (st : UpdateStats) (a b c : Bool) :
    (bump_category_stats st a b c).processed_packages = st.processed_packages ∧
    (bump_category_stats st a b c).updated_packages = st.updated_packages ∧
    (bump_category_stats st a b c).skipped_packages = st.skipped_packages ∧
    (bump_category_stats st a b c).failed_packages = st.failed_packages ∧
    (bump_category_stats st a b c).errors = st.errors ∧
    (bump_category_stats st a b c).dry_run_changes = st.dry_run_changes := by
  unfold bump_category_stats
  rcases a <;> rcases b <;> rcases c <;> exact ⟨rfl, rfl, rfl, rfl, rfl, rfl⟩

lemma bump_processed (st : UpdateStats) (a b c : Bool) :
    (bump_category_stats st a b c).processed_packages = st.processed_packages :=
  (bump_category_stats_proj st a b c).1

lemma bump_updated (st : UpdateStats) (a b c : Bool) :
    (bump_category_stats st a b c).updated_packages = st.updated_packages :=
  (bump_category_stats_proj st a b c).2.1

lemma bump_failed (st : UpdateStats) (a b c : Bool) :
    (bump_category_stats st a b c).failed_packages = st.failed_packages :=
  (bump_category_stats_proj st a b c).2.2.2.1

lemma bump_errors (st : UpdateStats) (a b c : Bool) :
    (bump_category_stats st a b c).errors = st.errors :=
  (bump_category_stats_proj st a b c).2.2.2.2.1

lemma bump_dry_run (st : UpdateStats) (a b c : Bool) :
    (bump_category_stats st a b c).dry_run_changes = st.dry_run_changes :=
  (bump_category_stats_proj st a b c).2.2.2.2.2

lemma apply_updates_go_trace (svc : Services) (pid : String) (payload : Updates) :
    ∀ (r attempt : Nat) (st : UpdateStats),
      (∀ a ∈ (apply_updates_go svc pid payload st attempt r).2.2,
        a = WriteAttempt.mk pid payload) ∧
      (0 < r → (apply_updates_go svc pid payload st attempt r).2.2 ≠ []) ∧
      (∀ i, i + 1 < (apply_updates_go svc pid payload st attempt r).2.2.length →
        (svc.writeResult pid (attempt + i)).isSome = true) := by
  intro r
  induction r with
  | zero => intro attempt st; simp [apply_updates_go]
  | succ n ih =>
    intro attempt st
    unfold apply_updates_go
    rcases hw : svc.writeResult pid attempt with _ | e
    · simp
    · dsimp only
      split
      · refine ⟨?_, fun _ => by simp, ?_⟩
        · intro a ha
          rcases List.mem_cons.mp ha with rfl | ha'
          · rfl
          · exact (ih (attempt + 1) st).1 a ha'
        · intro i hi
          rcases i with _ | j
          · simp [hw]
          · have := (ih (attempt + 1) st).2.2 j (by
              simpa [Nat.succ_lt_succ_iff] using hi)
            simpa [Nat.add_assoc, Nat.add_comm 1 j] using this
      · refine ⟨?_, fun _ => by simp, ?_⟩
        · intro a ha
          simpa using ha
        · intro i hi
          simp at hi

lemma apply_updates_go_stats (svc : Services) (pid : String) (payload : Updates) :
    ∀ (r attempt : Nat) (st : UpdateStats),
      (apply_updates_go svc pid payload st attempt r).2.1 = st ∨
      ∃ e, (apply_updates_go svc pid payload st attempt r).2.1 =
        st.add_error pid e "database_update" := by
  intro r
  induction r with
  | zero => intro attempt st; exact Or.inl rfl
  | succ n ih =>
    intro attempt st
    unfold apply_updates_go
    rcases svc.writeResult pid attempt with _ | e
    · exact Or.inl rfl
    · dsimp only
      split
      · exact ih (attempt + 1) st
      · exact Or.inr ⟨e, rfl⟩

lemma apply_updates_all_fail (svc : Services) (pid : String) (st : UpdateStats)
    (u : Updates) (hf : ∀ i, (svc.writeResult pid i).isSome = true) :
    ∃ e, svc.writeResult pid (max_retries - 1) = some e ∧
      (apply_updates svc st pid u).1 = false ∧
      (apply_updates svc st pid u).2.1 = st.add_error pid e "database_update" := by
  obtain ⟨e0, h0⟩ := Option.isSome_iff_exists.mp (hf 0)
  obtain ⟨e1, h1⟩ := Option.isSome_iff_exists.mp (hf 1)
  obtain ⟨e2, h2⟩ := Option.isSome_iff_exists.mp (hf 2)
  refine ⟨e2, h2, ?_⟩
  simp [apply_updates, apply_updates_go, max_retries, h0, h1, h2]

/-- The store writes of `_process_single_package` all carry the record's id
and the merged update set stamped with `last_updated`. -/
lemma process_single_writes_spec (svc : Services) (dry_run : Bool)
    (exc : Option String) (entry : Entry) (st : UpdateStats) :
    ∀ a ∈ (process_single_package svc dry_run exc entry st).2.1,
      a = WriteAttempt.mk entry.id
        (dictSet (merged_updates svc entry) "last_updated" (.vstr svc.nowTs)) := by
  intro a ha
  unfold process_single_package at ha
  rcases exc with _ | msg
  · dsimp only at ha
    split at ha
    · split at ha
      · simp at ha
      · exact (apply_updates_go_trace svc entry.id _ max_retries 0 _).1 a ha
    · simp at ha
  · simp at ha

/-- Per-record effect of `_process_single_package` on the failure-related
statistics: `processed_packages` always advances by one, `failed_packages`
advances exactly when an exception was raised, and the error list is only
appended to — with exactly the record's `"processing"` entry in the
exception case. -/
lemma process_single_stats_delta (svc : Services) (dry_run : Bool)
    (exc : Option String) (entry : Entry) (st : UpdateStats) :
    (process_single_package svc dry_run exc entry st).1.failed_packages =
      st.failed_packages + (if exc.isSome then 1 else 0) ∧
    (process_single_package svc dry_run exc entry st).1.processed_packages =
      st.processed_packages + 1 ∧
    ∃ extra, (process_single_package svc dry_run exc entry st).1.errors =
        st.errors ++ extra ∧
      (∀ msg, exc = some msg → extra = [(entry.id, msg, "processing")]) := by
  unfold process_single_package
  rcases exc with _ | msg
  · dsimp only
    set st0 : UpdateStats := { st with processed_packages := st.processed_packages + 1 } with hst0
    set st1 := bump_category_stats st0 (!(process_repository_data svc entry).isEmpty)
      (!(process_publication_data svc entry).isEmpty)
      ((updKeys (process_publication_data svc entry)).contains "citations") with hst1
    obtain ⟨hp, hu, hs, hfd, herr, hdr⟩ := bump_category_stats_proj st0
      (!(process_repository_data svc entry).isEmpty)
      (!(process_publication_data svc entry).isEmpty)
      ((updKeys (process_publication_data svc entry)).contains "citations")
    rw [← hst1] at hp hu hs hfd herr hdr
    split
    · split
      · refine ⟨by simpa using hfd, by simpa using hp, [], by simpa using herr, by simp⟩
      · rcases apply_updates_go_stats svc entry.id
          (dictSet (merged_updates svc entry) "last_updated" (.vstr svc.nowTs))
          max_retries 0 st1 with h | ⟨e, h⟩ <;>
          rw [show (apply_updates svc st1 entry.id (merged_updates svc entry)).2.1 =
            (apply_updates_go svc entry.id
              (dictSet (merged_updates svc entry) "last_updated" (.vstr svc.nowTs))
              st1 0 max_retries).2.1 from rfl, h]
        · exact ⟨by simpa using hfd, by simpa using hp, [], by simpa using herr, by simp⟩
        · refine ⟨?_, ?_, [(entry.id, e, "database_update")], ?_, by simp⟩
          · simpa [UpdateStats.add_error] using hfd
          · simpa [UpdateStats.add_error] using hp
          · simp [UpdateStats.add_error, herr]
    · refine ⟨by simpa using hfd, by simpa using hp, [], by simpa using herr, by simp⟩
  · refine ⟨rfl, rfl, [(entry.id, msg, "processing")], rfl, fun m hm => ?_⟩
    obtain rfl : msg = m := by simpa using hm
    rfl

/-! ## Update-set key inventories -/

lemma mem_updKeys_nil (a : String) : a ∈ updKeys ([] : Updates) ↔ False := by
  simp [updKeys]

lemma updKeys_nodup_nil : (updKeys ([] : Updates)).Nodup := by
  simp [updKeys]

lemma mem_updKeys_owner_repo {entry : Entry} {rl : String} {u : Updates} {a : String}
    (ha : a ∈ updKeys (owner_repo_updates entry rl u)) :
    a ∈ updKeys u ∨ a = "github_owner" ∨ a = "github_repo" := by
  unfold owner_repo_updates at ha
  repeat' split at ha
  all_goals
    try simp only [mem_updKeys_updSet_iff, mem_updKeys_dictSet_iff, mem_updKeys_nil,
      false_or, or_false] at ha
  all_goals tauto

lemma updKeys_nodup_owner_repo (entry : Entry) (rl : String) {u : Updates}
    (h : (updKeys u).Nodup) : (updKeys (owner_repo_updates entry rl u)).Nodup := by
  unfold owner_repo_updates
  repeat' split
  all_goals solve_by_elim [updKeys_nodup_updSet, updKeys_nodup_dictSet]

lemma getVal_owner_repo_other {a : String} (entry : Entry) (rl : String) (u : Updates)
    (h1 : a ≠ "github_owner") (h2 : a ≠ "github_repo") :
    getVal (owner_repo_updates entry rl u) a = getVal u a := by
  unfold owner_repo_updates
  repeat' split
  all_goals
    first
    | rfl
    | rw [getVal_updSet_other _ _ _ h2, getVal_updSet_other _ _ _ h1]

lemma publication_base_eq (svc : Services) (nurl : String) :
    publication_base svc nurl = [] ∨
    ∃ pubu, publication_base svc nurl = dictSet [] "publication" (.vstr pubu) := by
  unfold publication_base
  split
  · dsimp only
    split
    · split
      · exact Or.inr ⟨_, rfl⟩
      · exact Or.inl rfl
    · exact Or.inl rfl
  · exact Or.inl rfl

lemma mem_updKeys_publication_base {svc : Services} {nurl : String} {a : String}
    (ha : a ∈ updKeys (publication_base svc nurl)) : a = "publication" := by
  rcases publication_base_eq svc nurl with h | ⟨pubu, h⟩ <;> rw [h] at ha
  · exact absurd ha (by simp [mem_updKeys_nil])
  · simpa [mem_updKeys_dictSet_iff, mem_updKeys_nil] using ha

lemma updKeys_nodup_publication_base (svc : Services) (nurl : String) :
    (updKeys (publication_base svc nurl)).Nodup := by
  rcases publication_base_eq svc nurl with h | ⟨pubu, h⟩ <;> rw [h]
  · exact updKeys_nodup_nil
  · exact updKeys_nodup_dictSet _ _ updKeys_nodup_nil

lemma mem_updKeys_journal_updates {svc : Services} {entry : Entry} {lookup : String}
    {u : Updates} {a : String} (ha : a ∈ updKeys (journal_updates svc entry lookup u)) :
    a ∈ updKeys u ∨ a = "journal" ∨ a = "jif" := by
  unfold journal_updates at ha
  split at ha
  · exact Or.inl ha
  · simp only [mem_updKeys_updSet_iff] at ha
    tauto

lemma updKeys_nodup_journal_updates (svc : Services) (entry : Entry) (lookup : String)
    {u : Updates} (h : (updKeys u).Nodup) :
    (updKeys (journal_updates svc entry lookup u)).Nodup := by
  unfold journal_updates
  split
  · exact h
  · exact updKeys_nodup_updSet _ _ _ (updKeys_nodup_updSet _ _ _ h)

lemma getVal_journal_updates_other {a : String} (svc : Services) (entry : Entry)
    (lookup : String) (u : Updates) (h1 : a ≠ "journal") (h2 : a ≠ "jif") :
    getVal (journal_updates svc entry lookup u) a = getVal u a := by
  unfold journal_updates
  split
  · rfl
  · rw [getVal_updSet_other _ _ _ h2, getVal_updSet_other _ _ _ h1]

lemma updKeys_repo_sub (svc : Services) (entry : Entry) :
    ∀ a ∈ updKeys (process_repository_data svc entry),
      a = "github_stars" ∨ a = "last_commit" ∨ a = "last_commit_ago" ∨ a = "license" ∨
      a = "primary_language" ∨ a = "github_owner" ∨ a = "github_repo" := by
  intro a ha
  unfold process_repository_data at ha
  repeat' split at ha
  all_goals try simp only [mem_updKeys_nil] at ha
  rcases mem_updKeys_owner_repo ha with ha | ha | ha
  · simp only [mem_updKeys_updSet_iff, mem_updKeys_nil, false_or] at ha
    tauto
  · tauto
  · tauto

lemma updKeys_pub_sub (svc : Services) (entry : Entry) :
    ∀ a ∈ updKeys (process_publication_data svc entry),
      a = "publication" ∨ a = "citations" ∨ a = "journal" ∨ a = "jif" := by
  intro a ha
  simp only [process_publication_data] at ha
  repeat' split at ha
  all_goals try simp only [mem_updKeys_nil] at ha
  all_goals try exact Or.inl (mem_updKeys_publication_base ha)
  rcases mem_updKeys_journal_updates ha with h1 | h1 | h1
  · rcases (mem_updKeys_updSet_iff _ _ _ _ _).mp h1 with h2 | h2
    · exact Or.inl (mem_updKeys_publication_base h2)
    · tauto
  · tauto
  · tauto

lemma updKeys_repo_nodup (svc : Services) (entry : Entry) :
    (updKeys (process_repository_data svc entry)).Nodup := by
  unfold process_repository_data
  repeat' split
  all_goals
    first
    | exact updKeys_nodup_nil
    | exact updKeys_nodup_owner_repo _ _ (updKeys_nodup_updSet _ _ _
        (updKeys_nodup_updSet _ _ _ (updKeys_nodup_updSet _ _ _
          (updKeys_nodup_updSet _ _ _ (updKeys_nodup_updSet _ _ _ updKeys_nodup_nil)))))

lemma updKeys_pub_nodup (svc : Services) (entry : Entry) :
    (updKeys (process_publication_data svc entry)).Nodup := by
  simp only [process_publication_data]
  repeat' split
  all_goals
    first
    | exact updKeys_nodup_nil
    | exact updKeys_nodup_publication_base _ _
    | exact updKeys_nodup_journal_updates _ _ _ (updKeys_nodup_updSet _ _ _
        (updKeys_nodup_publication_base _ _))

lemma getVal_merged_of_repo_key (svc : Services) (entry : Entry) (a : String)
    (h1 : a ≠ "publication") (h2 : a ≠ "citations") (h3 : a ≠ "journal")
    (h4 : a ≠ "jif") :
    getVal (merged_updates svc entry) a =
      getVal (process_repository_data svc entry) a := by
  unfold merged_updates
  have hnp : a ∉ updKeys (process_publication_data svc entry) := fun h => by
    rcases updKeys_pub_sub svc entry a h with h | h | h | h <;> simp_all
  rw [getVal_dictUpdate_not_mem hnp,
    getVal_dictUpdate_nodup _ _ (updKeys_repo_nodup svc entry), getVal_nil]
  simp

lemma getVal_merged_of_pub_key (svc : Services) (entry : Entry) (a : String)
    (h1 : a ≠ "github_stars") (h2 : a ≠ "last_commit") (h3 : a ≠ "last_commit_ago")
    (h4 : a ≠ "license") (h5 : a ≠ "primary_language") (h6 : a ≠ "github_owner")
    (h7 : a ≠ "github_repo") :
    getVal (merged_updates svc entry) a =
      getVal (process_publication_data svc entry) a := by
  unfold merged_updates
  have hnr : a ∉ updKeys (process_repository_data svc entry) := fun h => by
    rcases updKeys_repo_sub svc entry a h with h | h | h | h | h | h | h <;> simp_all
  rw [getVal_dictUpdate_nodup _ _ (updKeys_pub_nodup svc entry),
    getVal_dictUpdate_nodup _ _ (updKeys_repo_nodup svc entry),
    getVal_eq_none_of_not_mem hnr, getVal_nil]
  simp

/-! ## C7: time-ago bucketing -/

/-- C7: for a commit timestamp `d` whole days in the past, the derived
time-ago string is `"<d> days ago"` (singular at `d = 1`) when `d < 30`,
`"<d / 30> months ago"` (singular at quotient 1, e.g. 40 days renders
`"1 month ago"`) when `30 ≤ d < 365`, and `"<d / 365> years ago"` (singular
at quotient 1, e.g. 400 days) otherwise. -/
theorem C7_time_ago_bucketing (d : Int) (h0 : 0 ≤ d) :
    (d < 30 → calculate_time_ago_days d =
      if d = 1 then "1 day ago" else toString d ++ " days ago") ∧
    (30 ≤ d → d < 365 → calculate_time_ago_days d =
      if Int.fdiv d 30 = 1 then "1 month ago" else toString (Int.fdiv d 30) ++ " months ago") ∧
    (365 ≤ d → calculate_time_ago_days d =
      if Int.fdiv d 365 = 1 then "1 year ago" else toString (Int.fdiv d 365) ++ " years ago") := by
  refine ⟨fun h => ?_, fun h30 h365 => ?_, fun h365 => ?_⟩ <;>
    · unfold calculate_time_ago_days
      split_ifs <;> simp_all [bne] <;> omega

/-- Witness for C7 at the claim's own examples: 40 days renders
`"1 month ago"` and 400 days renders `"1 year ago"`. -/
theorem C7_time_ago_bucketing_witness :
    calculate_time_ago_days 40 = "1 month ago" ∧
    calculate_time_ago_days 400 = "1 year ago" := by
  constructor
  · have h := (C7_time_ago_bucketing 40 (by decide)).2.1 (by decide) (by decide)
    simpa using h
  · have h := (C7_time_ago_bucketing 400 (by decide)).2.2 (by decide)
    simpa using h

/-! ## C8: repository path extraction -/

/-- C8 counterexample: the code removes `.git` *everywhere* in the
repository-name segment (`str.replace`), not only as a suffix: for
`https://github.com/numpy/num.gitpy`, whose repo segment has no `.git`
suffix, the claim requires `numpy/num.gitpy`, but the code yields
`numpy/numpy`. -/
theorem C8_counterexample :
    extract_repo_path "https://github.com/numpy/num.gitpy" = some "numpy/numpy" ∧
    extract_repo_path "https://github.com/numpy/num.gitpy" ≠ some "numpy/num.gitpy" := by
  decide

/-- C8 (amended): repository path extraction accepts scheme-less input,
tolerates trailing slashes, removes *every* occurrence of `.git` in the
repository-name segment (not only a suffix), and yields absent for a URL
whose host is not the recognized hosting domain;
`https://github.com/numpy/numpy` yields `numpy/numpy` and
`https://github.com/numpy/numpy.git/` yields `numpy/numpy`. -/
theorem C8_repo_path_extraction :
    extract_repo_path "github.com/numpy/numpy" = some "numpy/numpy" ∧
    extract_repo_path "https://github.com/numpy/numpy" = some "numpy/numpy" ∧
    extract_repo_path "https://github.com/numpy/numpy.git/" = some "numpy/numpy" ∧
    extract_repo_path "https://example.com/numpy/numpy" = none ∧
    extract_repo_path "https://gitlab.com/owner/repo" = none ∧
    extract_repo_path "https://github.com/numpy/num.gitpy" = some "numpy/numpy" ∧
    extract_repo_path "https://github.com/owner/a.git.gitb" = some "owner/ab" := by
  decide

/-! ## C5: `check_publication_status` error handling -/

/-- C5 counterexample: on a URL that is not recognized as any preprint
(`_identify_preprint` returns `(None, None)`; for
`https://example.com/paper` none of the arXiv/chemRxiv/bioRxiv/medRxiv
regular expressions matches, so the oracle value is `none`), the result
carries the error message but its status is `"unpublished"`, not `"error"`
as the claim requires. -/
theorem C5_counterexample :
    (check_publication_status (fun _ => none) (fun _ _ => .ok (none, none))
        (fun _ => none) "https://example.com/paper").error =
      some "Could not identify preprint type or ID" ∧
    (check_publication_status (fun _ => none) (fun _ _ => .ok (none, none))
        (fun _ => none) "https://example.com/paper").publication_status =
      "unpublished" ∧
    "unpublished" ≠ "error" := by
  decide

/-- C5 (amended): `check_publication_status` never raises (it is a total
function of the oracle outcomes), and whenever any failure occurs while
resolving a preprint — failure to identify the preprint type or identifier,
or an exception out of the server-specific checker — the returned result
carries a non-absent error message while its status *remains
`"unpublished"`*; the status is never `"error"` (it is only ever
`"unpublished"` or `"published"`). -/
theorem C5_error_handling
    (identify : String → Option (PreprintType × String))
    (checker : PreprintType → String → Except String (Option String × Option String))
    (getTitle : String → Option String) (url : String) :
    ((check_publication_status identify checker getTitle url).publication_status =
        "unpublished" ∨
      (check_publication_status identify checker getTitle url).publication_status =
        "published") ∧
    (identify url = none →
      (check_publication_status identify checker getTitle url).error =
          some "Could not identify preprint type or ID" ∧
        (check_publication_status identify checker getTitle url).publication_status =
          "unpublished") ∧
    (∀ t i, identify url = some (t, i) → i = "" →
      (check_publication_status identify checker getTitle url).error =
          some "Could not identify preprint type or ID" ∧
        (check_publication_status identify checker getTitle url).publication_status =
          "unpublished") ∧
    (∀ t i msg, identify url = some (t, i) → i ≠ "" → checker t i = .error msg →
      (check_publication_status identify checker getTitle url).error = some msg ∧
        (check_publication_status identify checker getTitle url).publication_status =
          "unpublished") := by
  refine ⟨?_, ?_, ?_, ?_⟩
  · unfold check_publication_status
    rcases identify url with _ | ⟨t, i⟩
    · simp
    · dsimp only
      by_cases hie : i.isEmpty = true
      · simp [hie]
      · rw [if_neg hie]
        rcases checker t i with e | ⟨pdoi, purl⟩
        · simp
        · rcases pdoi with _ | d <;> rcases purl with _ | pu <;> dsimp only <;>
            try simp
          split <;> simp
  · intro h
    simp [check_publication_status, h]
  · intro t i h hie
    subst hie
    rw [check_publication_status, h]
    simp [String.isEmpty]
  · intro t i msg h hie hc
    have hne : i.isEmpty = false := by
      cases he : i.isEmpty
      · rfl
      · exact absurd ((String.isEmpty_iff i).mp he) hie
    rw [check_publication_status, h]
    simp only [hne, Bool.false_eq_true, if_false, hc]
    exact ⟨trivial, trivial⟩

/-- Witness for C5 at a concrete failing identification and a concrete
raising checker. -/
theorem C5_error_handling_witness :
    ((check_publication_status (fun _ => none) (fun _ _ => .ok (none, none))
        (fun _ => none) "https://example.com/x").error =
      some "Could not identify preprint type or ID") ∧
    ((check_publication_status (fun _ => some (.arxiv, "1706.03762"))
        (fun _ _ => .error "boom") (fun _ => none) "https://arxiv.org/abs/1706.03762").error =
      some "boom") := by
  constructor
  · exact ((C5_error_handling (fun _ => none) (fun _ _ => .ok (none, none))
      (fun _ => none) "https://example.com/x").2.1 rfl).1
  · exact ((C5_error_handling (fun _ => some (.arxiv, "1706.03762"))
      (fun _ _ => .error "boom") (fun _ => none)
      "https://arxiv.org/abs/1706.03762").2.2.2 _ _ _ rfl (by decide) rfl).1

/-! ## Merge-policy lemmas (for C1) -/

lemma mem_updKeys_updSet_of_ne {a k : String} {u : Updates} {g : Bool}
    {v : Option Val} (hne : a ≠ k) (h : a ∈ updKeys (updSet u g k v)) :
    a ∈ updKeys u := by
  rcases (mem_updKeys_updSet_iff u g k v a).mp h with h' | ⟨rfl, _, _⟩
  · exact h'
  · exact absurd rfl hne

lemma mem_updKeys_updSet_guard_false {a k : String} {u : Updates} {g : Bool}
    {v : Option Val} (hg : g = false) (h : a ∈ updKeys (updSet u g k v)) :
    a ∈ updKeys u := by
  rcases (mem_updKeys_updSet_iff u g k v a).mp h with h' | ⟨_, hgt, _⟩
  · exact h'
  · rw [hg] at hgt
    cases hgt

/-- The repository update set under a successful fetch, written as the
explicit assignment chain. -/
lemma process_repo_eq (svc : Services) (entry : Entry) (rl : String) (rd : RepoData)
    (hrl : entry.repo_link = some rl) (hne : rl.isEmpty = false)
    (hgh : pyContains "github.com".toList rl.toList = true)
    (hrd : svc.getRepo rl = some rd) :
    process_repository_data svc entry =
      owner_repo_updates entry rl
        (updSet (updSet (updSet (updSet (updSet [] true "github_stars"
          (rd.stars.map .vint)) true "last_commit" (rd.last_commit.map .vstr))
          true "last_commit_ago" (rd.last_commit_ago.map .vstr))
          (entry.license == none) "license" (rd.license.map .vstr))
          (entry.primary_language == none) "primary_language"
          (rd.primary_language.map .vstr)) := by
  unfold process_repository_data
  rw [hrl]
  dsimp only
  rw [if_neg (by simp [hne]; exact hgh), hrd]

/-- The publication update set under a normalizable identifier, written via
the named stages. -/
lemma process_pub_eq (svc : Services) (entry : Entry) (pu nurl : String)
    (hpu : entry.publication_url = some pu) (hne : pu.isEmpty = false)
    (hnorm : normalize_doi pu = some nurl) (hnne : nurl.isEmpty = false) :
    process_publication_data svc entry =
      (if (!(resolved_lookup svc nurl).isEmpty &&
            !(is_preprint (resolved_lookup svc nurl))) = true then
        journal_updates svc entry (resolved_lookup svc nurl)
          (updSet (publication_base svc nurl) true "citations"
            ((svc.getCitations (resolved_lookup svc nurl)).map .vint))
      else publication_base svc nurl) := by
  unfold process_publication_data
  rw [hpu]
  dsimp only
  rw [if_neg (by simp [hne]), hnorm]
  dsimp only
  rw [if_neg (by simp [hnne])]

lemma repo_license_not_written (svc : Services) (entry : Entry)
    (h : entry.license ≠ none) :
    "license" ∉ updKeys (process_repository_data svc entry) := by
  intro hmem
  have hfalse : (entry.license == none) = false := by
    rcases hx : entry.license with _ | v
    · exact absurd hx h
    · rfl
  unfold process_repository_data at hmem
  repeat' split at hmem
  all_goals try simp only [mem_updKeys_nil] at hmem
  rcases mem_updKeys_owner_repo hmem with hm | hm | hm
  · have h4 := mem_updKeys_updSet_of_ne (by decide) hm
    have h3 := mem_updKeys_updSet_guard_false hfalse h4
    have h2 := mem_updKeys_updSet_of_ne (by decide) h3
    have h1 := mem_updKeys_updSet_of_ne (by decide) h2
    have h0 := mem_updKeys_updSet_of_ne (by decide) h1
    simp [mem_updKeys_nil] at h0
  · exact absurd hm (by decide)
  · exact absurd hm (by decide)

lemma repo_primary_language_not_written (svc : Services) (entry : Entry)
    (h : entry.primary_language ≠ none) :
    "primary_language" ∉ updKeys (process_repository_data svc entry) := by
  intro hmem
  have hfalse : (entry.primary_language == none) = false := by
    rcases hx : entry.primary_language with _ | v
    · exact absurd hx h
    · rfl
  unfold process_repository_data at hmem
  repeat' split at hmem
  all_goals try simp only [mem_updKeys_nil] at hmem
  rcases mem_updKeys_owner_repo hmem with hm | hm | hm
  · have h4 := mem_updKeys_updSet_guard_false hfalse hm
    have h3 := mem_updKeys_updSet_of_ne (by decide) h4
    have h2 := mem_updKeys_updSet_of_ne (by decide) h3
    have h1 := mem_updKeys_updSet_of_ne (by decide) h2
    have h0 := mem_updKeys_updSet_of_ne (by decide) h1
    simp [mem_updKeys_nil] at h0
  · exact absurd hm (by decide)
  · exact absurd hm (by decide)

lemma owner_repo_owner_not_written (entry : Entry) (rl : String) (u : Updates)
    (h : entry.github_owner ≠ none)
    (hm : "github_owner" ∈ updKeys (owner_repo_updates entry rl u)) :
    "github_owner" ∈ updKeys u := by
  have hfalse : (entry.github_owner == none) = false := by
    rcases hx : entry.github_owner with _ | v
    · exact absurd hx h
    · rfl
  simp only [owner_repo_updates] at hm
  repeat' split at hm
  all_goals try exact hm
  all_goals
    exact mem_updKeys_updSet_guard_false hfalse (mem_updKeys_updSet_of_ne (by decide) hm)

lemma owner_repo_repo_not_written (entry : Entry) (rl : String) (u : Updates)
    (h : entry.github_repo ≠ none)
    (hm : "github_repo" ∈ updKeys (owner_repo_updates entry rl u)) :
    "github_repo" ∈ updKeys u := by
  have hfalse : (entry.github_repo == none) = false := by
    rcases hx : entry.github_repo with _ | v
    · exact absurd hx h
    · rfl
  simp only [owner_repo_updates] at hm
  repeat' split at hm
  all_goals try exact hm
  all_goals
    exact mem_updKeys_updSet_of_ne (by decide) (mem_updKeys_updSet_guard_false hfalse hm)

lemma repo_owner_not_written (svc : Services) (entry : Entry)
    (h : entry.github_owner ≠ none) :
    "github_owner" ∉ updKeys (process_repository_data svc entry) := by
  intro hmem
  unfold process_repository_data at hmem
  repeat' split at hmem
  all_goals try simp only [mem_updKeys_nil] at hmem
  have hm := owner_repo_owner_not_written _ _ _ h hmem
  have h4 := mem_updKeys_updSet_of_ne (by decide) hm
  have h3 := mem_updKeys_updSet_of_ne (by decide) h4
  have h2 := mem_updKeys_updSet_of_ne (by decide) h3
  have h1 := mem_updKeys_updSet_of_ne (by decide) h2
  have h0 := mem_updKeys_updSet_of_ne (by decide) h1
  simp [mem_updKeys_nil] at h0

lemma repo_repo_not_written (svc : Services) (entry : Entry)
    (h : entry.github_repo ≠ none) :
    "github_repo" ∉ updKeys (process_repository_data svc entry) := by
  intro hmem
  unfold process_repository_data at hmem
  repeat' split at hmem
  all_goals try simp only [mem_updKeys_nil] at hmem
  have hm := owner_repo_repo_not_written _ _ _ h hmem
  have h4 := mem_updKeys_updSet_of_ne (by decide) hm
  have h3 := mem_updKeys_updSet_of_ne (by decide) h4
  have h2 := mem_updKeys_updSet_of_ne (by decide) h3
  have h1 := mem_updKeys_updSet_of_ne (by decide) h2
  have h0 := mem_updKeys_updSet_of_ne (by decide) h1
  simp [mem_updKeys_nil] at h0

lemma journal_updates_journal_guarded {svc : Services} {entry : Entry}
    {lookup : String} {u : Updates} (h : entry.journal ≠ none)
    (hm : "journal" ∈ updKeys (journal_updates svc entry lookup u)) :
    "journal" ∈ updKeys u := by
  have hfalse : (entry.journal == none) = false := by
    rcases hx : entry.journal with _ | v
    · exact absurd hx h
    · rfl
  unfold journal_updates at hm
  split at hm
  · exact hm
  · have h1 := mem_updKeys_updSet_of_ne (by decide) hm
    exact mem_updKeys_updSet_guard_false (by rw [hfalse, Bool.false_and]) h1

lemma journal_updates_jif_guarded {svc : Services} {entry : Entry}
    {lookup : String} {u : Updates} (h : entry.jif ≠ none)
    (hm : "jif" ∈ updKeys (journal_updates svc entry lookup u)) :
    "jif" ∈ updKeys u := by
  have hfalse : (entry.jif == none) = false := by
    rcases hx : entry.jif with _ | v
    · exact absurd hx h
    · rfl
  unfold journal_updates at hm
  split at hm
  · exact hm
  · exact mem_updKeys_updSet_of_ne (by decide)
      (mem_updKeys_updSet_guard_false hfalse hm)

lemma pub_journal_not_written (svc : Services) (entry : Entry)
    (h : entry.journal ≠ none) :
    "journal" ∉ updKeys (process_publication_data svc entry) := by
  intro hmem
  simp only [process_publication_data] at hmem
  repeat' split at hmem
  all_goals try simp only [mem_updKeys_nil] at hmem
  all_goals try exact absurd (mem_updKeys_publication_base hmem) (by decide)
  have h1 := journal_updates_journal_guarded h hmem
  have h0 := mem_updKeys_updSet_of_ne (by decide) h1
  exact absurd (mem_updKeys_publication_base h0) (by decide)

lemma pub_jif_not_written (svc : Services) (entry : Entry)
    (h : entry.jif ≠ none) :
    "jif" ∉ updKeys (process_publication_data svc entry) := by
  intro hmem
  simp only [process_publication_data] at hmem
  repeat' split at hmem
  all_goals try simp only [mem_updKeys_nil] at hmem
  all_goals try exact absurd (mem_updKeys_publication_base hmem) (by decide)
  have h1 := journal_updates_jif_guarded h hmem
  have h0 := mem_updKeys_updSet_of_ne (by decide) h1
  exact absurd (mem_updKeys_publication_base h0) (by decide)

/-- Lift a key absent from both sides to absence from the merged set. -/
lemma merged_not_mem {svc : Services} {entry : Entry} {a : String}
    (hr : a ∉ updKeys (process_repository_data svc entry))
    (hp : a ∉ updKeys (process_publication_data svc entry)) :
    a ∉ updKeys (merged_updates svc entry) := by
  intro hmem
  rcases mem_updKeys_dictUpdate hmem with h1 | h1
  · rcases mem_updKeys_dictUpdate h1 with h2 | h2
    · exact absurd h2 (by simp [mem_updKeys_nil])
    · exact hr h2
  · exact hp h1

/-- A key outside the publication inventory is absent from the merged set
whenever it is absent from the repository update set. -/
lemma merged_not_mem_repo_side {svc : Services} {entry : Entry} {a : String}
    (hr : a ∉ updKeys (process_repository_data svc entry))
    (h1 : a ≠ "publication") (h2 : a ≠ "citations") (h3 : a ≠ "journal")
    (h4 : a ≠ "jif") : a ∉ updKeys (merged_updates svc entry) := by
  refine merged_not_mem hr fun hp => ?_
  rcases updKeys_pub_sub svc entry a hp with h | h | h | h <;> simp_all

/-- A key outside the repository inventory is absent from the merged set
whenever it is absent from the publication update set. -/
lemma merged_not_mem_pub_side {svc : Services} {entry : Entry} {a : String}
    (hp : a ∉ updKeys (process_publication_data svc entry))
    (h1 : a ≠ "github_stars") (h2 : a ≠ "last_commit") (h3 : a ≠ "last_commit_ago")
    (h4 : a ≠ "license") (h5 : a ≠ "primary_language") (h6 : a ≠ "github_owner")
    (h7 : a ≠ "github_repo") : a ∉ updKeys (merged_updates svc entry) := by
  refine merged_not_mem (fun hr => ?_) hp
  rcases updKeys_repo_sub svc entry a hr with h | h | h | h | h | h | h <;> simp_all

/-! ## C1: the merge policy -/

/-- C1: merge policy for every record.  The merged update set always carries
the fetched star count and last-commit fields when the fetch returned them,
regardless of prior value; it carries the license only when the record's
license is unset (and never when it is set, likewise primary language and
the owner/repo path fields); it always carries the freshly fetched citation
count for a non-preprint lookup; it carries journal name and impact factor
only when they are unset; and when preprint resolution succeeds the
published identifier is written back into the `publication` field, replacing
the original preprint identifier, and the citation/journal lookups of the
same pass use the resolved identifier. -/
theorem C1_merge_policy (svc : Services) (entry : Entry) :
    (∀ rl rd, entry.repo_link = some rl → rl.isEmpty = false →
      pyContains "github.com".toList rl.toList = true → svc.getRepo rl = some rd →
      (∀ s, rd.stars = some s →
        getVal (merged_updates svc entry) "github_stars" = some (.vint s)) ∧
      (∀ c, rd.last_commit = some c →
        getVal (merged_updates svc entry) "last_commit" = some (.vstr c)) ∧
      (∀ c, rd.last_commit_ago = some c →
        getVal (merged_updates svc entry) "last_commit_ago" = some (.vstr c)) ∧
      (∀ l, entry.license = none → rd.license = some l →
        getVal (merged_updates svc entry) "license" = some (.vstr l))) ∧
    (entry.license ≠ none → "license" ∉ updKeys (merged_updates svc entry)) ∧
    (entry.primary_language ≠ none →
      "primary_language" ∉ updKeys (merged_updates svc entry)) ∧
    (entry.github_owner ≠ none → "github_owner" ∉ updKeys (merged_updates svc entry)) ∧
    (entry.github_repo ≠ none → "github_repo" ∉ updKeys (merged_updates svc entry)) ∧
    (entry.journal ≠ none → "journal" ∉ updKeys (merged_updates svc entry)) ∧
    (entry.jif ≠ none → "jif" ∉ updKeys (merged_updates svc entry)) ∧
    (∀ pu nurl, entry.publication_url = some pu → pu.isEmpty = false →
      normalize_doi pu = some nurl → nurl.isEmpty = false →
      (∀ c, (resolved_lookup svc nurl).isEmpty = false →
        is_preprint (resolved_lookup svc nurl) = false →
        svc.getCitations (resolved_lookup svc nurl) = some c →
        getVal (merged_updates svc entry) "citations" = some (.vint c)) ∧
      (∀ pubu, is_preprint nurl = true →
        (check_publication_status svc.identify svc.checker svc.getTitle
          nurl).publication_status = "published" →
        (check_publication_status svc.identify svc.checker svc.getTitle
          nurl).published_url = some pubu →
        pubu.isEmpty = false →
        getVal (merged_updates svc entry) "publication" = some (.vstr pubu) ∧
        resolved_lookup svc nurl = pubu)) := by
  refine ⟨?_, ?_, ?_, ?_, ?_, ?_, ?_, ?_⟩
  · intro rl rd hrl hne hgh hrd
    have hrepo := process_repo_eq svc entry rl rd hrl hne hgh hrd
    refine ⟨?_, ?_, ?_, ?_⟩
    · intro s hs
      rw [getVal_merged_of_repo_key svc entry _ (by decide) (by decide) (by decide)
          (by decide), hrepo,
        getVal_owner_repo_other entry rl _ (by decide) (by decide),
        getVal_updSet_other _ _ _ (show ("github_stars" : String) ≠ "primary_language"
          by decide),
        getVal_updSet_other _ _ _ (show ("github_stars" : String) ≠ "license" by decide),
        getVal_updSet_other _ _ _ (show ("github_stars" : String) ≠ "last_commit_ago"
          by decide),
        getVal_updSet_other _ _ _ (show ("github_stars" : String) ≠ "last_commit"
          by decide), hs]
      exact getVal_updSet_self _ "github_stars" (.vint s)
    · intro c hc
      rw [getVal_merged_of_repo_key svc entry _ (by decide) (by decide) (by decide)
          (by decide), hrepo,
        getVal_owner_repo_other entry rl _ (by decide) (by decide),
        getVal_updSet_other _ _ _ (show ("last_commit" : String) ≠ "primary_language"
          by decide),
        getVal_updSet_other _ _ _ (show ("last_commit" : String) ≠ "license" by decide),
        getVal_updSet_other _ _ _ (show ("last_commit" : String) ≠ "last_commit_ago"
          by decide), hc]
      exact getVal_updSet_self _ "last_commit" (.vstr c)
    · intro c hc
      rw [getVal_merged_of_repo_key svc entry _ (by decide) (by decide) (by decide)
          (by decide), hrepo,
        getVal_owner_repo_other entry rl _ (by decide) (by decide),
        getVal_updSet_other _ _ _
          (show ("last_commit_ago" : String) ≠ "primary_language" by decide),
        getVal_updSet_other _ _ _ (show ("last_commit_ago" : String) ≠ "license"
          by decide), hc]
      exact getVal_updSet_self _ "last_commit_ago" (.vstr c)
    · intro l hl0 hl
      rw [getVal_merged_of_repo_key svc entry _ (by decide) (by decide) (by decide)
          (by decide), hrepo,
        getVal_owner_repo_other entry rl _ (by decide) (by decide),
        getVal_updSet_other _ _ _ (show ("license" : String) ≠ "primary_language"
          by decide), hl0, hl]
      exact getVal_updSet_self _ "license" (.vstr l)
  · intro h
    exact merged_not_mem_repo_side (repo_license_not_written svc entry h)
      (by decide) (by decide) (by decide) (by decide)
  · intro h
    exact merged_not_mem_repo_side (repo_primary_language_not_written svc entry h)
      (by decide) (by decide) (by decide) (by decide)
  · intro h
    exact merged_not_mem_repo_side (repo_owner_not_written svc entry h)
      (by decide) (by decide) (by decide) (by decide)
  · intro h
    exact merged_not_mem_repo_side (repo_repo_not_written svc entry h)
      (by decide) (by decide) (by decide) (by decide)
  · intro h
    exact merged_not_mem_pub_side (pub_journal_not_written svc entry h)
      (by decide) (by decide) (by decide) (by decide) (by decide) (by decide) (by decide)
  · intro h
    exact merged_not_mem_pub_side (pub_jif_not_written svc entry h)
      (by decide) (by decide) (by decide) (by decide) (by decide) (by decide) (by decide)
  · intro pu nurl hpu hne hnorm hnne
    have hpub := process_pub_eq svc entry pu nurl hpu hne hnorm hnne
    constructor
    · intro c hlk hprep hc
      rw [getVal_merged_of_pub_key svc entry _ (by decide) (by decide) (by decide)
          (by decide) (by decide) (by decide) (by decide), hpub,
        if_pos (by simp [hlk, hprep]),
        getVal_journal_updates_other svc entry _ _
          (show ("citations" : String) ≠ "journal" by decide)
          (show ("citations" : String) ≠ "jif" by decide), hc]
      exact getVal_updSet_self _ "citations" (.vint c)
    · intro pubu hprep hstatus hpurl hpne
      have hbase : getVal (publication_base svc nurl) "publication" =
          some (.vstr pubu) := by
        unfold publication_base
        rw [hprep, if_pos rfl]
        dsimp only
        rw [hpurl]
        simp [hstatus, hpne, getVal_dictSet]
      have hlook : resolved_lookup svc nurl = pubu := by
        unfold resolved_lookup
        rw [hprep, if_pos rfl]
        dsimp only
        rw [hpurl]
        simp [hstatus, hpne]
      refine ⟨?_, hlook⟩
      rw [getVal_merged_of_pub_key svc entry _ (by decide) (by decide) (by decide)
          (by decide) (by decide) (by decide) (by decide), hpub]
      by_cases hcond : (!(resolved_lookup svc nurl).isEmpty &&
          !(is_preprint (resolved_lookup svc nurl))) = true
      · rw [if_pos hcond,
          getVal_journal_updates_other svc entry _ _
            (show ("publication" : String) ≠ "journal" by decide)
            (show ("publication" : String) ≠ "jif" by decide),
          getVal_updSet_other _ _ _ (show ("publication" : String) ≠ "citations"
            by decide)]
        exact hbase
      · rw [if_neg hcond]
        exact hbase

/-- Witness for C1: a record whose repository fetch returns full data and
whose preprint resolves to a published identifier gets the star count, the
fresh citation count at the resolved identifier, and the written-back
publication identifier. -/
theorem C1_merge_policy_witness :
    getVal (merged_updates sample_services_full sample_entry_full) "github_stars" =
      some (.vint 7) ∧
    getVal (merged_updates sample_services_full sample_entry_full) "citations" =
      some (.vint 42) ∧
    getVal (merged_updates sample_services_full sample_entry_full) "publication" =
      some (.vstr "https://doi.org/10.1000/xyz") ∧
    resolved_lookup sample_services_full "https://arxiv.org/abs/1706.03762" =
      "https://doi.org/10.1000/xyz" := by
  refine ⟨?_, ?_, ?_, ?_⟩
  · exact (((C1_merge_policy sample_services_full sample_entry_full).1
      "https://github.com/numpy/numpy" _ rfl (by decide) (by decide) rfl).1 7 rfl)
  · exact (((C1_merge_policy sample_services_full sample_entry_full).2.2.2.2.2.2.2
      "https://arxiv.org/abs/1706.03762" "https://arxiv.org/abs/1706.03762"
      rfl (by decide) (by decide) (by decide)).1 42 (by decide) (by decide) rfl)
  · exact (((C1_merge_policy sample_services_full sample_entry_full).2.2.2.2.2.2.2
      "https://arxiv.org/abs/1706.03762" "https://arxiv.org/abs/1706.03762"
      rfl (by decide) (by decide) (by decide)).2 "https://doi.org/10.1000/xyz"
      (by decide) (by decide) rfl (by decide)).1
  · exact (((C1_merge_policy sample_services_full sample_entry_full).2.2.2.2.2.2.2
      "https://arxiv.org/abs/1706.03762" "https://arxiv.org/abs/1706.03762"
      rfl (by decide) (by decide) (by decide)).2 "https://doi.org/10.1000/xyz"
      (by decide) (by decide) rfl (by decide)).2

/-! ## C4: pagination -/

lemma fetchLoop_none_step {α : Type} (store : List α) (ps : Nat) (fuel p t : Nat) :
    fetchLoop store ps none (fuel + 1) p t =
      (let lo := p * ps
       let page := (store.drop lo).take ps
       if page.length = ps then
         let r := fetchLoop store ps none fuel (p + 1) (t + page.length)
         (DbQuery.rangeQ lo (lo + ps - 1) :: r.1, page ++ r.2)
       else ([DbQuery.rangeQ lo (lo + ps - 1)], page)) := rfl

lemma fetchLoop_cap_step {α : Type} (store : List α) (ps m : Nat) (fuel p t : Nat) :
    fetchLoop store ps (some m) (fuel + 1) p t =
      (if m ≤ t then ([], [])
       else
         let fetchCount := min ps (m - t)
         let lo := p * ps
         let page := (store.drop lo).take fetchCount
         if page.length = fetchCount ∧ t + page.length < m then
           let r := fetchLoop store ps (some m) fuel (p + 1) (t + page.length)
           (DbQuery.rangeQ lo (lo + fetchCount - 1) :: r.1, page ++ r.2)
         else ([DbQuery.rangeQ lo (lo + fetchCount - 1)], page)) := rfl

lemma sub_succ_mul_div_succ {L p ps : Nat} (hps : 0 < ps)
    (hlen : ps ≤ L - p * ps) :
    (L - p * ps) / ps = (L - (p + 1) * ps) / ps + 1 := by
  have e : L - (p + 1) * ps = L - p * ps - ps := by
    rw [Nat.succ_mul, ← Nat.sub_sub]
  rw [e, ← Nat.add_div_right _ hps, Nat.sub_add_cancel hlen]

lemma range_map_succ_cons {β : Type} (f : Nat → β) (k : Nat) :
    (List.range (k + 1)).map f = f 0 :: (List.range k).map (fun j => f (j + 1)) := by
  simp [List.range_succ_eq_map, List.map_map, Function.comp]

/-- Without a cap, the loop issues one `.range` query per window of `ps`
records, windows advancing by `ps`, and returns the whole remaining store. -/
lemma fetchLoop_none_eq {α : Type} (store : List α) (ps : Nat) (hps : 0 < ps) :
    ∀ fuel p t, (store.length - p * ps) / ps + 1 ≤ fuel →
      fetchLoop store ps none fuel p t =
        ((List.range ((store.length - p * ps) / ps + 1)).map
          (fun j => DbQuery.rangeQ ((p + j) * ps) ((p + j) * ps + ps - 1)),
         store.drop (p * ps)) := by
  intro fuel
  induction fuel with
  | zero => intro p t h; exact absurd h (Nat.not_succ_le_zero _)
  | succ fuel ih =>
    intro p t h
    rw [fetchLoop_none_step]
    dsimp only
    by_cases hfull : ((store.drop (p * ps)).take ps).length = ps
    · have hlen : ps ≤ store.length - p * ps := by
        simp only [List.length_take, List.length_drop] at hfull
        omega
      have hk := sub_succ_mul_div_succ hps hlen
      rw [if_pos hfull, hfull, ih (p + 1) (t + ps) (by omega)]
      refine Prod.ext ?_ ?_
      · show DbQuery.rangeQ (p * ps) (p * ps + ps - 1) ::
          (List.range ((store.length - (p + 1) * ps) / ps + 1)).map
            (fun j => DbQuery.rangeQ ((p + 1 + j) * ps) ((p + 1 + j) * ps + ps - 1)) = _
        conv_rhs => rw [show (store.length - p * ps) / ps + 1 =
            ((store.length - (p + 1) * ps) / ps + 1) + 1 by omega,
          range_map_succ_cons]
        refine List.cons_eq_cons.mpr ⟨by simp, ?_⟩
        refine List.map_congr_left ?_
        intro j hj
        have e1 : p + (j + 1) = p + 1 + j := by omega
        simp [e1]
      · show (store.drop (p * ps)).take ps ++ store.drop ((p + 1) * ps) =
          store.drop (p * ps)
        rw [Nat.succ_mul, ← List.drop_drop, List.take_append_drop]
    · have hshort : store.length - p * ps < ps := by
        simp only [List.length_take, List.length_drop] at hfull
        omega
      have hq : (store.length - p * ps) / ps = 0 := Nat.div_eq_of_lt hshort
      rw [if_neg hfull]
      refine Prod.ext ?_ ?_
      · show [DbQuery.rangeQ (p * ps) (p * ps + ps - 1)] = _
        rw [hq]
        have r1 : List.range 1 = [0] := rfl
        simp [r1]
      · show (store.drop (p * ps)).take ps = store.drop (p * ps)
        refine List.take_of_length_le ?_
        simp only [List.length_drop]
        omega

/-- With a cap of `m` records and `t` already fetched, the loop returns
exactly the next `m - t` records of the store (in order). -/
lemma fetchLoop_cap_snd {α : Type} (store : List α) (ps m : Nat) (hps : 0 < ps) :
    ∀ fuel p t, (store.length - p * ps) / ps + 1 ≤ fuel →
      (fetchLoop store ps (some m) fuel p t).2 =
        (store.drop (p * ps)).take (m - t) := by
  intro fuel
  induction fuel with
  | zero => intro p t h; exact absurd h (Nat.not_succ_le_zero _)
  | succ fuel ih =>
    intro p t h
    rw [fetchLoop_cap_step]
    by_cases hmt : m ≤ t
    · rw [if_pos hmt]
      simp [Nat.sub_eq_zero_of_le hmt]
    · rw [if_neg hmt]
      dsimp only
      have hpl : ((store.drop (p * ps)).take (min ps (m - t))).length =
          min (min ps (m - t)) (store.length - p * ps) := by
        simp [List.length_take, List.length_drop]
      by_cases hrec : ((store.drop (p * ps)).take (min ps (m - t))).length =
          min ps (m - t) ∧
          t + ((store.drop (p * ps)).take (min ps (m - t))).length < m
      · have hlt : ps < m - t := by
          rcases hrec with ⟨h1, h2⟩
          omega
        have hmin : min ps (m - t) = ps := Nat.min_eq_left (by omega)
        have hlen : ps ≤ store.length - p * ps := by
          rcases hrec with ⟨h1, _⟩
          rw [hpl] at h1
          omega
        have hk := sub_succ_mul_div_succ hps hlen
        rw [if_pos hrec, hrec.1, hmin]
        show (store.drop (p * ps)).take ps ++
          (fetchLoop store ps (some m) fuel (p + 1) (t + ps)).2 = _
        rw [ih (p + 1) (t + ps) (by omega),
          show m - t = ps + (m - (t + ps)) by omega, List.take_add,
          Nat.succ_mul, ← List.drop_drop]
      · rw [if_neg hrec]
        show (store.drop (p * ps)).take (min ps (m - t)) = _
        by_cases hmt2 : m - t ≤ ps
        · rw [Nat.min_eq_right hmt2]
        · have hshort : store.length - p * ps < ps := by
            rw [hpl] at hrec
            omega
          rw [List.take_of_length_le (by simp only [List.length_drop]; omega),
            List.take_of_length_le (by simp only [List.length_drop]; omega)]

/-- With a cap, every issued query is a `.range` query whose lower bound
advances by exactly `ps` per page and whose width is `ps` except possibly on
the final (cap-clipped) page. -/
lemma fetchLoop_cap_fst {α : Type} (store : List α) (ps m : Nat) (hps : 0 < ps) :
    ∀ fuel p t, (store.length - p * ps) / ps + 1 ≤ fuel →
      (fetchLoop store ps (some m) fuel p t).1 =
        (List.range (fetchLoop store ps (some m) fuel p t).1.length).map
          (fun j => DbQuery.rangeQ ((p + j) * ps)
            ((p + j) * ps + min ps (m - t - j * ps) - 1)) := by
  intro fuel
  induction fuel with
  | zero => intro p t h; exact absurd h (Nat.not_succ_le_zero _)
  | succ fuel ih =>
    intro p t h
    rw [fetchLoop_cap_step]
    by_cases hmt : m ≤ t
    · rw [if_pos hmt]
      simp
    · rw [if_neg hmt]
      dsimp only
      by_cases hrec : ((store.drop (p * ps)).take (min ps (m - t))).length =
          min ps (m - t) ∧
          t + ((store.drop (p * ps)).take (min ps (m - t))).length < m
      · have hpl : ((store.drop (p * ps)).take (min ps (m - t))).length =
            min (min ps (m - t)) (store.length - p * ps) := by
          simp [List.length_take, List.length_drop]
        have hlt : ps < m - t := by
          rcases hrec with ⟨h1, h2⟩
          omega
        have hmin : min ps (m - t) = ps := Nat.min_eq_left (by omega)
        have hlen : ps ≤ store.length - p * ps := by
          rcases hrec with ⟨h1, _⟩
          rw [hpl] at h1
          omega
        have hk := sub_succ_mul_div_succ hps hlen
        rw [if_pos hrec, hrec.1, hmin]
        show DbQuery.rangeQ (p * ps) (p * ps + ps - 1) ::
          (fetchLoop store ps (some m) fuel (p + 1) (t + ps)).1 = _
        rw [ih (p + 1) (t + ps) (by omega)]
        rw [List.length_cons, List.length_map, List.length_range,
          range_map_succ_cons]
        refine List.cons_eq_cons.mpr ⟨by simp [hmin], ?_⟩
        refine List.map_congr_left ?_
        intro j hj
        have e1 : p + (j + 1) = p + 1 + j := by omega
        have e2 : m - t - (j + 1) * ps = m - (t + ps) - j * ps := by
          rw [Nat.sub_sub, Nat.sub_sub, Nat.succ_mul]
          refine congrArg _ ?_
          ring
        simp [e1, e2]
      · rw [if_neg hrec]
        show [DbQuery.rangeQ (p * ps) (p * ps + min ps (m - t) - 1)] = _
        have r1 : List.range 1 = [0] := rfl
        simp [r1]

/-- C4: every non-identifier selection is served by fixed-size `.range` page
queries whose lower bound advances by the page size, stopping at a short page
or at the cap (the capped fetch returns exactly the first `n` records in
store order); fetching 2,500 records with page size 1,000 issues exactly 3
range queries and returns all records in order; an identifier-list selection
issues one single non-paginated `.in_` query. -/
theorem C4_pagination {α : Type} (idOf : α → String) (store : List α) :
    (∀ l, fetch_packages idOf store (Selection.ids l) =
        ([DbQuery.inQ l], store.filter (fun r => l.contains (idOf r)))) ∧
    fetch_packages idOf store Selection.all =
      ((List.range (store.length / page_size + 1)).map
        (fun j => DbQuery.rangeQ (j * page_size)
          (j * page_size + page_size - 1)),
       store) ∧
    (∀ n, (fetch_packages idOf store (Selection.cap n)).2 = store.take n) ∧
    (∀ n, (fetch_packages idOf store (Selection.cap n)).1 =
        (List.range (fetch_packages idOf store (Selection.cap n)).1.length).map
          (fun j => DbQuery.rangeQ (j * page_size)
            (j * page_size + min page_size (n - j * page_size) - 1))) ∧
    (store.length = 2500 →
      (fetch_packages idOf store Selection.all).1.length = 3 ∧
      (fetch_packages idOf store Selection.all).2 = store) := by
  have hps : 0 < page_size := by decide
  have hall : fetch_packages idOf store Selection.all =
      ((List.range (store.length / page_size + 1)).map
        (fun j => DbQuery.rangeQ (j * page_size)
          (j * page_size + page_size - 1)),
       store) := by
    show fetchLoop store page_size none (store.length / page_size + 1) 0 0 = _
    rw [fetchLoop_none_eq store page_size hps _ 0 0 (by simp)]
    simp
  refine ⟨fun l => rfl, hall, ?_, ?_, ?_⟩
  · intro n
    show (fetchLoop store page_size (some n) (store.length / page_size + 1) 0 0).2 = _
    rw [fetchLoop_cap_snd store page_size n hps _ 0 0 (by simp)]
    simp
  · intro n
    show (fetchLoop store page_size (some n) (store.length / page_size + 1) 0 0).1 = _
    rw [fetchLoop_cap_fst store page_size n hps _ 0 0 (by simp)]
    simp only [Nat.zero_add, Nat.sub_zero]
    rfl
  · intro hlen
    rw [hall]
    refine ⟨?_, rfl⟩
    simp [hlen, page_size]

/-- Witness for C4: a store of 2,500 records fetched with `--all` yields
exactly 3 range queries and all 2,500 records in original order. -/
theorem C4_pagination_witness :
    (fetch_packages (fun _ : Nat => "") (List.range 2500) Selection.all).1.length
      = 3 ∧
    (fetch_packages (fun _ : Nat => "") (List.range 2500) Selection.all).2 =
      List.range 2500 :=
  (C4_pagination (fun _ : Nat => "") (List.range 2500)).2.2.2.2 (by simp)

/-! ## C6: `normalize_doi` idempotence -/

lemma normalizeDoiList_eq (input : List Char) :
    normalizeDoiList input =
      if input.isEmpty then none
      else doiFinal (cleanFix ((doiExtract (stripChars input)).length + 1)
        (doiExtract (stripChars input))) := rfl

lemma dropWhile_idem (p : Char → Bool) (l : List Char) :
    (l.dropWhile p).dropWhile p = l.dropWhile p := by
  induction l with
  | nil => rfl
  | cons a t ih => cases hpa : p a <;> simp [List.dropWhile_cons, hpa, ih]

lemma dropWhile_cons_false (p : Char → Bool) (c : Char) (t : List Char)
    (hc : p c = false) : (c :: t).dropWhile p = c :: t := by
  simp [List.dropWhile_cons, hc]

lemma dropWhile_append_fixed (p : Char → Bool) (l l₂ : List Char)
    (hne : l ≠ []) (hl : l.dropWhile p = l) :
    (l ++ l₂).dropWhile p = l ++ l₂ := by
  cases l with
  | nil => exact absurd rfl hne
  | cons a t =>
    have ha : p a = false := by
      cases hpa : p a
      · rfl
      · exfalso
        rw [List.dropWhile_cons, if_pos (by simp [hpa])] at hl
        have hsuf := (List.dropWhile_suffix (l := t) p).length_le
        rw [hl] at hsuf
        simp at hsuf
    simp [List.dropWhile_cons, ha]

lemma stripChars_reverse_dw (w : List Char) :
    (stripChars w).reverse.dropWhile Char.isWhitespace = (stripChars w).reverse := by
  unfold stripChars
  rw [List.reverse_reverse]
  exact dropWhile_idem _ _

lemma reSubEnd_pref (p : List Char → Bool) (l : List Char) : reSubEnd p l <+: l := by
  unfold reSubEnd
  cases h : findMatchStart p l with
  | some i => exact List.take_prefix i l
  | none => exact List.prefix_refl l

lemma stripChars_isInfix (l : List Char) : stripChars l <:+: l := by
  unfold stripChars
  have h1 : l.dropWhile Char.isWhitespace <:+ l := List.dropWhile_suffix _
  have h2 : ((l.dropWhile Char.isWhitespace).reverse.dropWhile
      Char.isWhitespace).reverse <+: l.dropWhile Char.isWhitespace := by
    conv_rhs => rw [← List.reverse_reverse (l.dropWhile Char.isWhitespace)]
    exact List.reverse_prefix.mpr (List.dropWhile_suffix _)
  exact h2.isInfix.trans h1.isInfix

lemma cleanStep_isInfix (l : List Char) : cleanStep l <:+: l := by
  simp only [cleanStep]
  refine (stripChars_isInfix _).trans ?_
  refine ( List.takeWhile_prefix _).isInfix.trans ?_
  refine ( List.takeWhile_prefix _).isInfix.trans ?_
  refine (reSubEnd_pref _ _).isInfix.trans ?_
  refine (reSubEnd_pref _ _).isInfix.trans ?_
  refine (reSubEnd_pref _ _).isInfix.trans ?_
  refine (reSubEnd_pref _ _).isInfix.trans ?_
  exact (reSubEnd_pref _ _).isInfix

lemma cleanStep_length_lt {l : List Char} (h : cleanStep l ≠ l) :
    (cleanStep l).length < l.length := by
  rcases Nat.lt_or_ge (cleanStep l).length l.length with hlt | hge
  · exact hlt
  · exact absurd ((cleanStep_isInfix l).eq_of_length
      (Nat.le_antisymm (cleanStep_isInfix l).length_le hge)) h

lemma cleanFix_isInfix (n : Nat) : ∀ l, cleanFix n l <:+: l := by
  induction n with
  | zero => intro l; exact List.infix_refl l
  | succ n ih =>
    intro l
    show (if cleanStep l = l then l else cleanFix n (cleanStep l)) <:+: l
    by_cases h : cleanStep l = l
    · rw [if_pos h]
    · rw [if_neg h]
      exact (ih (cleanStep l)).trans (cleanStep_isInfix l)

lemma cleanFix_fixpoint (n : Nat) : ∀ l, l.length < n →
    cleanStep (cleanFix n l) = cleanFix n l := by
  induction n with
  | zero => intro l h; omega
  | succ n ih =>
    intro l h
    show cleanStep (if cleanStep l = l then l else cleanFix n (cleanStep l)) =
      (if cleanStep l = l then l else cleanFix n (cleanStep l))
    by_cases hc : cleanStep l = l
    · rw [if_pos hc]
      exact hc
    · rw [if_neg hc]
      exact ih (cleanStep l) (by have := cleanStep_length_lt hc; omega)

lemma cleanFix_of_fixed (n : Nat) (l : List Char) (h : cleanStep l = l) :
    cleanFix n l = l := by
  cases n with
  | zero => rfl
  | succ n =>
    show (if cleanStep l = l then l else cleanFix n (cleanStep l)) = l
    rw [if_pos h]

lemma cleanStep_eq_strip (l : List Char) : ∃ w, cleanStep l = stripChars w :=
  ⟨_, rfl⟩

lemma afterLastAux_cons_some {pat t r : List Char} (c : Char)
    (h : afterLastAux pat t = some r) :
    afterLastAux pat (c :: t) = some r := by
  show (match afterLastAux pat t with
        | some r => some r
        | none => if pat.isPrefixOf (c :: t) then some ((c :: t).drop pat.length)
                  else none) = some r
  rw [h]

lemma afterLastAux_cons_none {pat t : List Char} (c : Char)
    (h : afterLastAux pat t = none) (hp : pat.isPrefixOf (c :: t) = false) :
    afterLastAux pat (c :: t) = none := by
  show (match afterLastAux pat t with
        | some r => some r
        | none => if pat.isPrefixOf (c :: t) then some ((c :: t).drop pat.length)
                  else none) = none
  rw [h]
  simp [hp]

lemma afterLastAux_cons_found {pat t : List Char} (c : Char)
    (h : afterLastAux pat t = none) (hp : pat.isPrefixOf (c :: t) = true) :
    afterLastAux pat (c :: t) = some ((c :: t).drop pat.length) := by
  show (match afterLastAux pat t with
        | some r => some r
        | none => if pat.isPrefixOf (c :: t) then some ((c :: t).drop pat.length)
                  else none) = _
  rw [h]
  simp [hp]

lemma afterLastAux_cons_step {p₀ : Char} {pr t : List Char} (c : Char)
    (h : afterLastAux (p₀ :: pr) t = none) (hne : (p₀ == c) = false) :
    afterLastAux (p₀ :: pr) (c :: t) = none :=
  afterLastAux_cons_none c h (by simp [List.isPrefixOf, hne])

lemma afterLastAux_isSome_iff {pat : List Char} (hpat : pat ≠ []) :
    ∀ l, (afterLastAux pat l).isSome = true ↔ pat <:+: l := by
  intro l
  induction l with
  | nil =>
    constructor
    · intro h
      simp [afterLastAux] at h
    · intro h
      exact absurd (List.eq_nil_of_infix_nil h) hpat
  | cons c t ih =>
    constructor
    · intro h
      cases hA : afterLastAux pat t with
      | some r =>
        exact List.infix_cons_iff.mpr (Or.inr (ih.mp (by simp [hA])))
      | none =>
        by_cases hp : pat.isPrefixOf (c :: t) = true
        · exact ( List.isPrefixOf_iff_prefix.mp hp).isInfix
        · rw [afterLastAux_cons_none c hA (by
            cases hb : pat.isPrefixOf (c :: t) with
            | false => rfl
            | true => exact absurd hb hp)] at h
          simp at h
    · intro h
      rcases List.infix_cons_iff.mp h with hpre | htail
      · cases hA : afterLastAux pat t with
        | some r => rw [afterLastAux_cons_some c hA]; rfl
        | none =>
          rw [afterLastAux_cons_found c hA ( List.isPrefixOf_iff_prefix.mpr hpre)]
          rfl
      · obtain ⟨r, hr⟩ := Option.isSome_iff_exists.mp (ih.mpr htail)
        rw [afterLastAux_cons_some c hr]
        rfl

lemma pyContains_iff {pat : List Char} (hpat : pat ≠ []) (l : List Char) :
    pyContains pat l = true ↔ pat <:+: l :=
  afterLastAux_isSome_iff hpat l

lemma pyContains_false_mono {pat l l₂ : List Char} (hpat : pat ≠ [])
    (h : pyContains pat l = false) (hinf : l₂ <:+: l) :
    pyContains pat l₂ = false := by
  cases hcc : pyContains pat l₂ with
  | false => rfl
  | true =>
    exact absurd ((pyContains_iff hpat l).mpr
      (((pyContains_iff hpat l₂).mp hcc).trans hinf)) (by simp [h])

/-- The suffix returned for the last occurrence holds no further occurrence:
`s.split(pat)[-1]` never contains `pat`. -/
lemma afterLastAux_not_contains {pat : List Char} (hpat : pat ≠ []) :
    ∀ l r, afterLastAux pat l = some r → pyContains pat r = false := by
  intro l
  induction l with
  | nil =>
    intro r h
    simp [afterLastAux] at h
  | cons c t ih =>
    intro r h
    cases hA : afterLastAux pat t with
    | some r₂ =>
      rw [afterLastAux_cons_some c hA] at h
      obtain rfl : r₂ = r := Option.some.inj h
      exact ih r₂ hA
    | none =>
      by_cases hp : pat.isPrefixOf (c :: t) = true
      · rw [afterLastAux_cons_found c hA hp] at h
        obtain rfl : (c :: t).drop pat.length = r := Option.some.inj h
        cases hcc : pyContains pat ((c :: t).drop pat.length) with
        | false => rfl
        | true =>
          exfalso
          have h1 : pat <:+: (c :: t).drop pat.length :=
            (pyContains_iff hpat _).mp hcc
          have h2 : (c :: t).drop pat.length <:+ t := by
            cases pat with
            | nil => exact absurd rfl hpat
            | cons p₀ pr =>
              show (c :: t).drop (pr.length + 1) <:+ t
              rw [List.drop_succ_cons]
              exact List.drop_suffix _ _
          have h4 := (afterLastAux_isSome_iff hpat t).mpr (h1.trans h2.isInfix)
          rw [hA] at h4
          simp at h4
      · rw [afterLastAux_cons_none c hA (by
          cases hb : pat.isPrefixOf (c :: t) with
          | false => rfl
          | true => exact absurd hb hp)] at h
        simp at h

lemma pyContains_pyAfterLastSplit {pat l : List Char} (hpat : pat ≠ [])
    (h : pyContains pat l = true) :
    pyContains pat (pyAfterLastSplit pat l) = false := by
  unfold pyContains at h
  obtain ⟨r, hr⟩ := Option.isSome_iff_exists.mp h
  unfold pyAfterLastSplit
  rw [hr]
  exact afterLastAux_not_contains hpat l r hr

lemma doiOrg_ne_nil : "doi.org/".toList ≠ [] := by decide

/-- Whatever branch the extraction stage takes, its result holds no
`doi.org/` occurrence. -/
lemma pyContains_doiExtract (d : List Char) :
    pyContains "doi.org/".toList (doiExtract d) = false := by
  unfold doiExtract
  by_cases h1 : pyContains "doi.org/".toList d = true
  · rw [if_pos h1]
    exact pyContains_pyAfterLastSplit doiOrg_ne_nil h1
  · have h1f : pyContains "doi.org/".toList d = false := by
      cases hb : pyContains "doi.org/".toList d with
      | false => rfl
      | true => exact absurd hb h1
    rw [if_neg h1]
    by_cases h2 : (pyContains "http://".toList d ||
        pyContains "https://".toList d) = true
    · rw [if_pos h2]
      cases hF : findMatchStart matchDoiPat d with
      | some i =>
        exact pyContains_false_mono doiOrg_ne_nil h1f
          (List.drop_suffix i d).isInfix
      | none => exact h1f
    · rw [if_neg h2]
      exact h1f

lemma doiOrgList_eq : "doi.org/".toList = ['d','o','i','.','o','r','g','/'] := rfl

/-- In `"https://doi.org/" ++ d` with no `doi.org/` occurrence inside `d`,
the last `doi.org/` occurrence is the one of the prefix, so the split
returns exactly `d`. -/
lemma afterLastAux_canonical {d : List Char}
    (hd : afterLastAux "doi.org/".toList d = none) :
    afterLastAux "doi.org/".toList ("https://doi.org/".toList ++ d) = some d := by
  rw [doiOrgList_eq] at hd
  have h1 : afterLastAux ['d','o','i','.','o','r','g','/'] ('/' :: d) = none :=
    afterLastAux_cons_step '/' hd (by decide)
  have h2 : afterLastAux ['d','o','i','.','o','r','g','/'] ('g' :: '/' :: d) = none :=
    afterLastAux_cons_step 'g' h1 (by decide)
  have h3 : afterLastAux ['d','o','i','.','o','r','g','/']
      ('r' :: 'g' :: '/' :: d) = none :=
    afterLastAux_cons_step 'r' h2 (by decide)
  have h4 : afterLastAux ['d','o','i','.','o','r','g','/']
      ('o' :: 'r' :: 'g' :: '/' :: d) = none :=
    afterLastAux_cons_step 'o' h3 (by decide)
  have h5 : afterLastAux ['d','o','i','.','o','r','g','/']
      ('.' :: 'o' :: 'r' :: 'g' :: '/' :: d) = none :=
    afterLastAux_cons_step '.' h4 (by decide)
  have h6 : afterLastAux ['d','o','i','.','o','r','g','/']
      ('i' :: '.' :: 'o' :: 'r' :: 'g' :: '/' :: d) = none :=
    afterLastAux_cons_step 'i' h5 (by decide)
  have h7 : afterLastAux ['d','o','i','.','o','r','g','/']
      ('o' :: 'i' :: '.' :: 'o' :: 'r' :: 'g' :: '/' :: d) = none :=
    afterLastAux_cons_step 'o' h6 (by decide)
  have h8 : afterLastAux ['d','o','i','.','o','r','g','/']
      ('d' :: 'o' :: 'i' :: '.' :: 'o' :: 'r' :: 'g' :: '/' :: d) = some d :=
    afterLastAux_cons_found 'd' h7 (by simp [List.isPrefixOf])
  have h9 := afterLastAux_cons_some '/' h8
  have h10 := afterLastAux_cons_some '/' h9
  have h11 := afterLastAux_cons_some ':' h10
  have h12 := afterLastAux_cons_some 's' h11
  have h13 := afterLastAux_cons_some 'p' h12
  have h14 := afterLastAux_cons_some 't' h13
  have h15 := afterLastAux_cons_some 't' h14
  have h16 := afterLastAux_cons_some 'h' h15
  exact h16

lemma canonList_eq : "https://doi.org/".toList =
    ['h','t','t','p','s',':','/','/','d','o','i','.','o','r','g','/'] := rfl

lemma stripChars_canonical {d : List Char} (hne : d ≠ [])
    (hlast : d.reverse.dropWhile Char.isWhitespace = d.reverse) :
    stripChars ("https://doi.org/".toList ++ d) =
      "https://doi.org/".toList ++ d := by
  have hhead : ("https://doi.org/".toList ++ d).dropWhile Char.isWhitespace =
      "https://doi.org/".toList ++ d :=
    dropWhile_cons_false Char.isWhitespace 'h' ("ttps://doi.org/".toList ++ d)
      (by decide)
  have hrev : ("https://doi.org/".toList ++ d).reverse.dropWhile
      Char.isWhitespace = ("https://doi.org/".toList ++ d).reverse := by
    rw [List.reverse_append]
    exact dropWhile_append_fixed Char.isWhitespace d.reverse
      ("https://doi.org/".toList).reverse (by simpa using hne) hlast
  unfold stripChars
  rw [hhead, hrev, List.reverse_reverse]

/-- Feeding a canonical result back into `normalize_doi` reproduces it: the
stripped input is unchanged, the split returns the bare identifier, the
cleaning loop is already at its fixed point, and the `10.` branch re-attaches
the same prefix. -/
lemma normalizeDoiList_canonical {d : List Char} (hne : d.isEmpty = false)
    (h10 : "10.".toList.isPrefixOf d = true) (hfix : cleanStep d = d)
    (hnc : pyContains "doi.org/".toList d = false) :
    normalizeDoiList ("https://doi.org/".toList ++ d) =
      some ("https://doi.org/".toList ++ d) := by
  have hdne : d ≠ [] := by
    intro hD
    rw [hD] at hne
    simp at hne
  obtain ⟨w, hw⟩ := cleanStep_eq_strip d
  have hds : d = stripChars w := hfix.symm.trans hw
  have hlast : d.reverse.dropWhile Char.isWhitespace = d.reverse := by
    rw [hds]
    exact stripChars_reverse_dw w
  have hstrip := stripChars_canonical hdne hlast
  have hdnone : afterLastAux "doi.org/".toList d = none := by
    cases hA : afterLastAux "doi.org/".toList d with
    | none => rfl
    | some r =>
      unfold pyContains at hnc
      rw [hA] at hnc
      simp at hnc
  have hAL := afterLastAux_canonical hdnone
  have hcon : pyContains "doi.org/".toList
      ("https://doi.org/".toList ++ d) = true := by
    unfold pyContains
    rw [hAL]
    rfl
  have hext : doiExtract ("https://doi.org/".toList ++ d) = d := by
    unfold doiExtract
    rw [if_pos hcon]
    unfold pyAfterLastSplit
    rw [hAL]
  rw [normalizeDoiList_eq,
    if_neg (show ¬(("https://doi.org/".toList ++ d).isEmpty = true) by
      rw [canonList_eq]; simp),
    hstrip, hext, cleanFix_of_fixed (d.length + 1) d hfix]
  unfold doiFinal
  rw [if_pos (show (!d.isEmpty && "10.".toList.isPrefixOf d) = true by
    rw [hne, h10]; rfl)]

/-- C6 counterexample: `normalize_doi` is not idempotent on every non-absent
result.  On `doi.org/http://a/10.5/z` the split-after-`doi.org/` branch
returns the passthrough URL `http://a/10.5/z`, but running `normalize_doi`
on that result extracts the embedded bare DOI and returns the different
canonical string `https://doi.org/10.5/z`. -/
theorem C6_counterexample :
    normalize_doi "doi.org/http://a/10.5/z" = some "http://a/10.5/z" ∧
    normalize_doi "http://a/10.5/z" = some "https://doi.org/10.5/z" ∧
    normalize_doi "http://a/10.5/z" ≠ some "http://a/10.5/z" := by
  refine ⟨by decide, by decide, by decide⟩

/-- C6 (amended): `normalize_doi` is idempotent on every result that carries
the canonical `https://doi.org/` prefix: whenever `normalize_doi x` returns
such a string `y`, `normalize_doi y` returns `y` again. -/
theorem C6_normalize_doi_idempotent (x y : String)
    (h : normalize_doi x = some y)
    (hpre : "https://doi.org/".toList.isPrefixOf y.toList = true) :
    normalize_doi y = some y := by
  unfold normalize_doi at h
  obtain ⟨ly, hly, hy⟩ := Option.map_eq_some'.mp h
  have hyl : y.toList = ly := by rw [← hy, List.toList_asString]
  rw [normalizeDoiList_eq] at hly
  by_cases hE : x.toList.isEmpty = true
  · rw [if_pos hE] at hly
    exact absurd hly (by simp)
  · rw [if_neg hE] at hly
    set d0 := doiExtract (stripChars x.toList) with hd0
    set dF := cleanFix (d0.length + 1) d0 with hdF
    have hfix : cleanStep dF = dF :=
      cleanFix_fixpoint (d0.length + 1) d0 (Nat.lt_succ_self _)
    have hnc : pyContains "doi.org/".toList dF = false :=
      pyContains_false_mono doiOrg_ne_nil
        (pyContains_doiExtract (stripChars x.toList))
        (cleanFix_isInfix (d0.length + 1) d0)
    unfold doiFinal at hly
    by_cases hc1 : (!dF.isEmpty && "10.".toList.isPrefixOf dF) = true
    · rw [if_pos hc1] at hly
      have hlyE : ly = "https://doi.org/".toList ++ dF := (Option.some.inj hly).symm
      rw [Bool.and_eq_true, Bool.not_eq_true'] at hc1
      have hcomp := normalizeDoiList_canonical hc1.1 hc1.2 hfix hnc
      unfold normalize_doi
      rw [hyl, hlyE, hcomp, Option.map_some']
      rw [← hy, hlyE]
    · rw [if_neg hc1] at hly
      by_cases hc2 : (!dF.isEmpty && (pyContains "http".toList dF ||
          pyContains "doi.org".toList dF)) = true
      · rw [if_pos hc2] at hly
        have hlyE : ly = dF := (Option.some.inj hly).symm
        exfalso
        have hpf : "https://doi.org/".toList <+: dF := by
          rw [hyl, hlyE] at hpre
          exact List.isPrefixOf_iff_prefix.mp hpre
        have hinf : "doi.org/".toList <:+: dF :=
          (show "doi.org/".toList <:+: "https://doi.org/".toList from
            ⟨"https://".toList, [], by decide⟩).trans hpf.isInfix
        rw [(pyContains_iff doiOrg_ne_nil dF).mpr hinf] at hnc
        simp at hnc
      · rw [if_neg hc2] at hly
        exact absurd hly (by simp)

/-- Witness for the amended C6: a bare DOI normalizes to the canonical form
and the canonical form re-normalizes to itself. -/
theorem C6_normalize_doi_idempotent_witness :
    normalize_doi "https://doi.org/10.1234/abc" =
      some "https://doi.org/10.1234/abc" :=
  C6_normalize_doi_idempotent "10.1234/abc" "https://doi.org/10.1234/abc"
    (by decide) (by decide)

/-! ## C2: dry-run / live write discipline -/

/-- C2: in dry-run mode, processing a record never issues any write to the
record store (the would-be change is recorded in the change list instead);
in live mode no write is issued for a record with an empty merged update
set, and for a record with a non-empty merged update set exactly one write
is issued, not counting retries: every issued write targets the record's id
with the stamped merged update set, and any write after the first exists
only because the preceding attempt failed. -/
theorem C2_write_discipline (svc : Services) (exc : Option String) (entry : Entry)
    (st : UpdateStats) :
    ((process_single_package svc true exc entry st).2.1 = []) ∧
    (∀ dry, exc ≠ none → (process_single_package svc dry exc entry st).2.1 = []) ∧
    (exc = none → merged_updates svc entry ≠ [] →
      (process_single_package svc true exc entry st).1.dry_run_changes =
        st.dry_run_changes ++ (merged_updates svc entry).map
          (fun (p : String × Val) =>
            ({ package_id := entry.id,
               package_name := entry.package_name.getD "Unknown", field := p.1,
               old_value := entry_field_get entry p.1, new_value := p.2 } :
              DryRunChange))) ∧
    (exc = none → merged_updates svc entry = [] →
      (process_single_package svc false exc entry st).2.1 = []) ∧
    (exc = none → merged_updates svc entry ≠ [] →
      (process_single_package svc false exc entry st).2.1 ≠ [] ∧
      (∀ a ∈ (process_single_package svc false exc entry st).2.1,
        a = WriteAttempt.mk entry.id
          (dictSet (merged_updates svc entry) "last_updated" (.vstr svc.nowTs))) ∧
      (∀ i, i + 1 < (process_single_package svc false exc entry st).2.1.length →
        (svc.writeResult entry.id i).isSome = true)) := by
  refine ⟨?_, ?_, ?_, ?_, ?_⟩
  · unfold process_single_package
    rcases exc with _ | msg
    · dsimp only
      split
      · split
        · rfl
        · simp at *
      · rfl
    · rfl
  · intro dry hne
    rcases exc with _ | msg
    · exact absurd rfl hne
    · rfl
  · rintro rfl hne
    unfold process_single_package
    dsimp only
    rw [if_pos hne, if_pos rfl]
    simp [bump_dry_run]
  · rintro rfl he
    unfold process_single_package
    dsimp only
    rw [if_neg (by simpa using he)]
  · rintro rfl hne
    have key : (process_single_package svc false none entry st).2.1 =
        (apply_updates_go svc entry.id
          (dictSet (merged_updates svc entry) "last_updated" (.vstr svc.nowTs))
          (bump_category_stats
            { st with processed_packages := st.processed_packages + 1 }
            (!(process_repository_data svc entry).isEmpty)
            (!(process_publication_data svc entry).isEmpty)
            ((updKeys (process_publication_data svc entry)).contains "citations"))
          0 max_retries).2.2 := by
      unfold process_single_package
      dsimp only
      rw [if_pos hne, if_neg (by simp)]
      rfl
    refine ⟨?_, process_single_writes_spec svc false none entry st, ?_⟩
    · rw [key]
      exact (apply_updates_go_trace svc entry.id _ max_retries 0 _).2.1 (by decide)
    · intro i hi
      rw [key] at hi
      have := (apply_updates_go_trace svc entry.id
        (dictSet (merged_updates svc entry) "last_updated" (.vstr svc.nowTs))
        max_retries 0 _).2.2 i hi
      simpa using this

/-- Witness for C2 at a concrete record with a non-empty merged update set:
the live run issues a write and the dry run issues none. -/
theorem C2_write_discipline_witness :
    ((process_single_package (sample_services (fun _ _ => none)) false none
        sample_entry {}).2.1 ≠ []) ∧
    ((process_single_package (sample_services (fun _ _ => none)) true none
        sample_entry {}).2.1 = []) := by
  constructor
  · exact ((C2_write_discipline (sample_services (fun _ _ => none)) none
      sample_entry {}).2.2.2.2 rfl (by decide)).1
  · exact (C2_write_discipline (sample_services (fun _ _ => none)) none
      sample_entry {}).1

/-! ## C10: a write failure still counts the record as updated -/

/-- C10: in live mode, for a record with a non-empty update set whose store
write fails on every attempt (so the retries are exhausted), the
`updated_packages` counter is still incremented — `_process_single_package`
ignores the boolean result of `_apply_updates` — the `failed_packages`
counter is not incremented, and only a `database_update` error entry is
appended; the final summary thus reports the record as updated although
nothing was written. -/
theorem C10_failed_write_counts_as_updated (svc : Services) (entry : Entry)
    (st : UpdateStats) (hne : merged_updates svc entry ≠ [])
    (hf : ∀ i, (svc.writeResult entry.id i).isSome = true) :
    (process_single_package svc false none entry st).1.updated_packages =
      st.updated_packages + 1 ∧
    (process_single_package svc false none entry st).1.failed_packages =
      st.failed_packages ∧
    ∃ e, svc.writeResult entry.id (max_retries - 1) = some e ∧
      (process_single_package svc false none entry st).1.errors =
        st.errors ++ [(entry.id, e, "database_update")] := by
  unfold process_single_package
  dsimp only
  rw [if_pos hne, if_neg (by simp)]
  set st0 : UpdateStats := { st with processed_packages := st.processed_packages + 1 }
    with hst0
  set st1 := bump_category_stats st0 (!(process_repository_data svc entry).isEmpty)
    (!(process_publication_data svc entry).isEmpty)
    ((updKeys (process_publication_data svc entry)).contains "citations") with hst1
  obtain ⟨hp, hu, hs, hfd, herr, hdr⟩ := bump_category_stats_proj st0
    (!(process_repository_data svc entry).isEmpty)
    (!(process_publication_data svc entry).isEmpty)
    ((updKeys (process_publication_data svc entry)).contains "citations")
  rw [← hst1] at hp hu hs hfd herr hdr
  obtain ⟨e, he, _, happ⟩ := apply_updates_all_fail svc entry.id st1
    (merged_updates svc entry) hf
  rw [happ]
  refine ⟨?_, ?_, e, he, ?_⟩
  · simpa [UpdateStats.add_error] using hu
  · simpa [UpdateStats.add_error] using hfd
  · simp [UpdateStats.add_error, herr]

/-- Witness for C10: a concrete record whose three write attempts all fail
is still counted as updated. -/
theorem C10_failed_write_counts_as_updated_witness :
    (process_single_package (sample_services (fun _ _ => some "connection reset"))
        false none sample_entry {}).1.updated_packages = 0 + 1 := by
  exact (C10_failed_write_counts_as_updated
    (sample_services (fun _ _ => some "connection reset")) sample_entry {}
    (by decide) (fun i => rfl)).1

/-! ## C3: batch isolation of per-record exceptions -/

/-- The fold of `_process_package_batch`, with an arbitrary starting write
accumulator: failure counts advance exactly by the number of raising
records, every record is processed, and the error list only grows. -/
lemma process_batch_fold_spec (svc : Services) (dry : Bool)
    (excOf : Entry → Option String) :
    ∀ (batch : List Entry) (st : UpdateStats) (w0 : List WriteAttempt),
      ((batch.foldl (fun acc e =>
          let r := process_single_package svc dry (excOf e) e acc.1
          (r.1, acc.2 ++ r.2.1)) (st, w0)).1.failed_packages =
        st.failed_packages + (batch.filter (fun e => (excOf e).isSome)).length) ∧
      ((batch.foldl (fun acc e =>
          let r := process_single_package svc dry (excOf e) e acc.1
          (r.1, acc.2 ++ r.2.1)) (st, w0)).1.processed_packages =
        st.processed_packages + batch.length) ∧
      ∃ extra, (batch.foldl (fun acc e =>
          let r := process_single_package svc dry (excOf e) e acc.1
          (r.1, acc.2 ++ r.2.1)) (st, w0)).1.errors = st.errors ++ extra := by
  intro batch
  induction batch with
  | nil => intro st w0; exact ⟨by simp, by simp, [], by simp⟩
  | cons e t ih =>
    intro st w0
    obtain ⟨hf1, hp1, ex1, he1, hex1⟩ := process_single_stats_delta svc dry (excOf e) e st
    obtain ⟨hf2, hp2, ex2, he2⟩ :=
      ih (process_single_package svc dry (excOf e) e st).1
        (w0 ++ (process_single_package svc dry (excOf e) e st).2.1)
    refine ⟨?_, ?_, ex1 ++ ex2, ?_⟩
    · rw [List.foldl_cons]
      rw [show (t.foldl (fun acc e =>
          let r := process_single_package svc dry (excOf e) e acc.1
          (r.1, acc.2 ++ r.2.1))
          ((process_single_package svc dry (excOf e) e st).1,
            w0 ++ (process_single_package svc dry (excOf e) e st).2.1)).1.failed_packages =
          (process_single_package svc dry (excOf e) e st).1.failed_packages +
            (t.filter (fun e => (excOf e).isSome)).length from hf2, hf1]
      rcases he : excOf e with _ | msg <;> simp [he, List.filter_cons] <;> omega
    · rw [List.foldl_cons]
      rw [show (t.foldl (fun acc e =>
          let r := process_single_package svc dry (excOf e) e acc.1
          (r.1, acc.2 ++ r.2.1))
          ((process_single_package svc dry (excOf e) e st).1,
            w0 ++ (process_single_package svc dry (excOf e) e st).2.1)).1.processed_packages =
          (process_single_package svc dry (excOf e) e st).1.processed_packages +
            t.length from hp2, hp1]
      simp; omega
    · rw [List.foldl_cons]
      rw [show (t.foldl (fun acc e =>
          let r := process_single_package svc dry (excOf e) e acc.1
          (r.1, acc.2 ++ r.2.1))
          ((process_single_package svc dry (excOf e) e st).1,
            w0 ++ (process_single_package svc dry (excOf e) e st).2.1)).1.errors =
          (process_single_package svc dry (excOf e) e st).1.errors ++ ex2 from he2, he1]
      simp

/-- Error-entry membership through the batch fold. -/
lemma process_batch_fold_mem (svc : Services) (dry : Bool)
    (excOf : Entry → Option String) :
    ∀ (batch : List Entry) (st : UpdateStats) (w0 : List WriteAttempt),
      ∀ e ∈ batch, ∀ msg, excOf e = some msg →
        (e.id, msg, "processing") ∈ (batch.foldl (fun acc e =>
          let r := process_single_package svc dry (excOf e) e acc.1
          (r.1, acc.2 ++ r.2.1)) (st, w0)).1.errors := by
  intro batch
  induction batch with
  | nil => intro st w0 e he; exact absurd he (List.not_mem_nil e)
  | cons hd t ih =>
    intro st w0 e he msg hmsg
    rcases List.mem_cons.mp he with rfl | he'
    · obtain ⟨_, _, ex1, he1, hex1⟩ := process_single_stats_delta svc dry (excOf e) e st
      have hmem1 : (e.id, msg, "processing") ∈
          (process_single_package svc dry (excOf e) e st).1.errors := by
        rw [he1, hex1 msg hmsg]
        simp
      obtain ⟨_, _, ex2, he2⟩ := process_batch_fold_spec svc dry excOf t
        (process_single_package svc dry (excOf e) e st).1
        (w0 ++ (process_single_package svc dry (excOf e) e st).2.1)
      rw [List.foldl_cons]
      rw [show (t.foldl (fun acc e =>
          let r := process_single_package svc dry (excOf e) e acc.1
          (r.1, acc.2 ++ r.2.1))
          ((process_single_package svc dry (excOf e) e st).1,
            w0 ++ (process_single_package svc dry (excOf e) e st).2.1)).1.errors =
          (process_single_package svc dry (excOf e) e st).1.errors ++ ex2 from he2]
      exact List.mem_append_left _ hmem1
    · rw [List.foldl_cons]
      exact ih _ _ e he' msg hmsg

/-- C3: if processing one record in a batch raises an exception, every other
record of the batch still completes (the processed count advances by the
whole batch length), the batch is not aborted, the failed count advances by
exactly one per failing record, and a structured `"processing"` error entry
carrying the failing record's identifier is recorded.  The embedded batch
processor is a total function, reflecting that the per-record handler
swallows every exception. -/
theorem C3_batch_exception_isolation (svc : Services) (dry : Bool)
    (excOf : Entry → Option String) (batch : List Entry) (st : UpdateStats) :
    ((process_package_batch svc dry excOf batch st).1.failed_packages =
      st.failed_packages + (batch.filter (fun e => (excOf e).isSome)).length) ∧
    ((process_package_batch svc dry excOf batch st).1.processed_packages =
      st.processed_packages + batch.length) ∧
    (∀ e ∈ batch, ∀ msg, excOf e = some msg →
      (e.id, msg, "processing") ∈ (process_package_batch svc dry excOf batch st).1.errors) := by
  obtain ⟨h1, h2, _⟩ := process_batch_fold_spec svc dry excOf batch st []
  exact ⟨h1, h2, process_batch_fold_mem svc dry excOf batch st []⟩

/-- Witness for C3: a three-record batch whose middle record raises still
processes all three records and records exactly one failure. -/
theorem C3_batch_exception_isolation_witness :
    ((process_package_batch (sample_services (fun _ _ => none)) false
        (fun e => if e.id = "bad" then some "boom" else none)
        [{ id := "a" }, { id := "bad" }, { id := "c" }] {}).1.failed_packages = 0 + 1) ∧
    ((process_package_batch (sample_services (fun _ _ => none)) false
        (fun e => if e.id = "bad" then some "boom" else none)
        [{ id := "a" }, { id := "bad" }, { id := "c" }] {}).1.processed_packages = 0 + 3) ∧
    (("bad", "boom", "processing") ∈ (process_package_batch
        (sample_services (fun _ _ => none)) false
        (fun e => if e.id = "bad" then some "boom" else none)
        [{ id := "a" }, { id := "bad" }, { id := "c" }] {}).1.errors) := by
  refine ⟨?_, ?_, ?_⟩
  · have h := (C3_batch_exception_isolation (sample_services (fun _ _ => none)) false
      (fun e => if e.id = "bad" then some "boom" else none)
      [{ id := "a" }, { id := "bad" }, { id := "c" }] {}).1
    rw [h]
    decide
  · exact (C3_batch_exception_isolation (sample_services (fun _ _ => none)) false
      (fun e => if e.id = "bad" then some "boom" else none)
      [{ id := "a" }, { id := "bad" }, { id := "c" }] {}).2.1
  · exact (C3_batch_exception_isolation (sample_services (fun _ _ => none)) false
      (fun e => if e.id = "bad" then some "boom" else none)
      [{ id := "a" }, { id := "bad" }, { id := "c" }] {}).2.2
      { id := "bad" } (by decide) "boom" (by decide)

/-! ## C9: rating aggregate fields are never written -/

/-- C9: for every record, the rating aggregate columns (`average_rating`,
`ratings_count`, `ratings_sum`) are never present in the computed merged
update set, and never appear in the payload of any store write the pipeline
issues (which also stamps only `last_updated` on top of the merged set). -/
theorem C9_rating_fields_never_written (svc : Services) (entry : Entry)
    (dry : Bool) (exc : Option String) (st : UpdateStats) :
    ((updKeys (merged_updates svc entry)).all
      (fun k => !(rating_keys.contains k)) = true) ∧
    ((process_single_package svc dry exc entry st).2.1.all
      (fun a => (updKeys a.payload).all (fun k => !(rating_keys.contains k))) = true) := by
  have hmerged : ∀ k ∈ updKeys (merged_updates svc entry),
      (!(rating_keys.contains k)) = true := by
    intro k hk
    rcases mem_updKeys_dictUpdate hk with hk' | hk'
    · rcases mem_updKeys_dictUpdate hk' with hk'' | hk''
      · exact absurd hk'' (by simp [mem_updKeys_nil])
      · rcases updKeys_repo_sub svc entry k hk'' with h | h | h | h | h | h | h <;>
          subst h <;> decide
    · rcases updKeys_pub_sub svc entry k hk' with h | h | h | h <;>
        subst h <;> decide
  constructor
  · exact List.all_eq_true.mpr hmerged
  · refine List.all_eq_true.mpr fun a ha => ?_
    rw [process_single_writes_spec svc dry exc entry st a ha]
    refine List.all_eq_true.mpr fun k hk => ?_
    rcases (mem_updKeys_dictSet_iff _ _ _ _).mp hk with hk' | rfl
    · exact hmerged k hk'
    · decide

end CaddVault
